import Mathlib

/-!
# jobtimes: the process table and the notification loop of `wmain`

A shallow embedding of `src/jobtimes.cpp`.

* `DWORD` values, process identifiers and handles are natural numbers; the one
  narrowing conversion of the loop, `(DWORD)reinterpret_cast<ULONG_PTR>(overlapped)`,
  is `% 2 ^ 32`.  A `HANDLE` equal to `0` is `nullptr`.
* Wide strings (`std::wstring`, `argv[i]`) are lists of `WCHAR` code units.
* `std::unordered_map<DWORD, ProcessInfo>` is an association list read through
  `find`; `operator[]` assignment and `erase` are `assign` and `erase`.
* Every operating system call is an input: the setup calls are fields of `Env`,
  and each dequeued completion packet carries the results of the calls made
  while it is handled (`OpenProcess`, `GetProcessImageFileNameW`,
  `GetTickCount64`, `GetProcessMemoryInfo`).
* What the program does to the outside is kept as explicit state: the lines
  written to `stderr` (`log`), the handles returned by successful calls of
  `OpenProcess` (`opened`) and the handles passed to `CloseHandle` (`closed`).
* `exit(1)` inside the loop is the flag `exited`; a run that waits for ever in
  `GetQueuedCompletionStatus` has no outcome (`wmain` returns `none`).
* `FriendlyBytesStr` is modelled with exact arithmetic: `(double)n` is the
  nearest value with a 53-bit significand (ties to even), the quotient by a
  power of two is exact, and `%0.1f` prints a nearest number of tenths, the
  choice of the C runtime at a tie being an input. Narrow strings are lists of
  characters. The log keeps the byte count itself.
-/

namespace Jobtimes

/-! ## Data model -/

/-- The record `struct ProcessInfo` kept for one tracked process. -/
structure ProcessInfo where
  processHandle : Nat
  imageName : List Nat
  ticksStarted : Nat
deriving DecidableEq

/-- The type of `activeProcesses`: `std::unordered_map<DWORD, ProcessInfo>`. -/
abbrev Table := List (Nat × ProcessInfo)

/-- Lookup of a key, `activeProcesses.find(k)`; `none` is `end()`. -/
def find (t : Table) (k : Nat) : Option ProcessInfo :=
  match t with
  | [] => none
  | (k', v) :: rest => if k' = k then some v else find rest k

/-- Removal of the record of a key, `activeProcesses.erase(iter)`, where `iter`
is the result of `find(k)`: the keys of a map are unique, so this drops every
entry with the key `k`. -/
def erase (t : Table) (k : Nat) : Table :=
  t.filter (fun e => decide (e.1 ≠ k))

/-- Assignment through `operator[]`: `activeProcesses[k] = v` inserts the key
or replaces the whole record stored under it. -/
def assign (t : Table) (k : Nat) (v : ProcessInfo) : Table :=
  (k, v) :: erase t k

/-- The keys of the table. -/
def keys (t : Table) : List Nat :=
  t.map Prod.fst

/-- The message identifier `JOB_OBJECT_MSG_NEW_PROCESS` of `winnt.h`. -/
def JOB_OBJECT_MSG_NEW_PROCESS : Nat := 6

/-- The message identifier `JOB_OBJECT_MSG_EXIT_PROCESS` of `winnt.h`. -/
def JOB_OBJECT_MSG_EXIT_PROCESS : Nat := 7

/-- One packet returned by a successful `GetQueuedCompletionStatus`, together
with the results of the system calls made while the packet is handled. -/
structure Completion where
  /-- The out-parameter `bytesTransferred`: the message identifier. -/
  bytesTransferred : Nat
  /-- The out-parameter `overlapped`, as an integer (`ULONG_PTR`). -/
  overlapped : Nat
  /-- The handle returned by `OpenProcess`; `0` is `nullptr`. -/
  openProcess : Nat
  /-- The characters `GetProcessImageFileNameW` wrote to `imageNameBuffer`. -/
  imageNameBuffer : List Nat
  /-- The length returned by `GetProcessImageFileNameW`. -/
  imageNameLength : Nat
  /-- The value of `GetTickCount64()`. -/
  tickCount : Nat
  /-- The result of `GetProcessMemoryInfo`: `PeakWorkingSetSize`, or `none`
  when the call fails. -/
  memoryInfo : Option Nat
deriving DecidableEq

/-- The identifier read from a packet:
`(DWORD)reinterpret_cast<ULONG_PTR>(overlapped)`. -/
def processId (c : Completion) : Nat :=
  c.overlapped % 2 ^ 32

/-- The image name stored for a new process: the buffer is terminated at
`imageNameLength` and read as a NUL-terminated string. -/
def imageName (c : Completion) : List Nat :=
  (c.imageNameBuffer.take c.imageNameLength).takeWhile (fun w => decide (w ≠ 0))

/-- The lines the notification loop writes to `stderr`. -/
inductive LogLine where
  /-- The line `JOB_OBJECT_MSG_NEW_PROCESS: pid = %u`. -/
  | newProcess (pid : Nat)
  /-- The line `warning: failed to open process %u`. -/
  | failedToOpen (pid : Nat)
  /-- The line `pid %u terminated: %ws`. -/
  | terminated (pid : Nat) (name : List Nat)
  /-- The line `    Peak working set: %s` for a byte count. -/
  | peakWorkingSet (bytes : Nat)
  /-- The line `warning: failed to get process memory info for child process.` -/
  | memoryInfoFailed
  /-- The line `warning: did not find process %u in active process table`. -/
  | notFound (pid : Nat)
  /-- The line `error: Failed to dequeue event from I/O completion port.` -/
  | dequeueFailed
deriving DecidableEq

/-- The state of the notification loop. -/
structure LoopState where
  /-- The table `activeProcesses`. -/
  activeProcesses : Table
  /-- The loop variable `quit`. -/
  quit : Bool
  /-- The handles passed to `CloseHandle`, oldest first. -/
  closed : List Nat
  /-- The handles returned by the successful calls of `OpenProcess`, oldest
  first. -/
  opened : List Nat
  /-- The lines written to `stderr`, oldest first. -/
  log : List LogLine
  /-- Whether `exit(1)` was called from the loop. -/
  exited : Bool
deriving DecidableEq

/-! ## The notification loop -/

/-- The `switch (bytesTransferred)` of the loop body, for the root identifier
`root` (`rootProcessInfo.dwProcessId`). -/
def handle (root : Nat) (s : LoopState) (c : Completion) : LoopState :=
  if c.bytesTransferred = JOB_OBJECT_MSG_NEW_PROCESS then
    let s1 := { s with log := s.log ++ [LogLine.newProcess (processId c)] }
    if processId c ≠ root then
      if c.openProcess ≠ 0 then
        let info : ProcessInfo :=
          { processHandle := c.openProcess, imageName := imageName c,
            ticksStarted := c.tickCount }
        { s1 with
          opened := s1.opened ++ [c.openProcess]
          activeProcesses := assign s1.activeProcesses (processId c) info }
      else
        { s1 with log := s1.log ++ [LogLine.failedToOpen (processId c)] }
    else s1
  else if c.bytesTransferred = JOB_OBJECT_MSG_EXIT_PROCESS then
    let s1 :=
      match find s.activeProcesses (processId c) with
      | some childInfo =>
        let line :=
          match c.memoryInfo with
          | some peak => LogLine.peakWorkingSet peak
          | none => LogLine.memoryInfoFailed
        { s with
          log := s.log ++ [LogLine.terminated (processId c) childInfo.imageName, line]
          closed := if processId c ≠ root then s.closed ++ [childInfo.processHandle]
                    else s.closed
          activeProcesses := erase s.activeProcesses (processId c) }
      | none => { s with log := s.log ++ [LogLine.notFound (processId c)] }
    if processId c = root then { s1 with quit := true } else s1
  else s

/-- One iteration of `while (!quit)`: the dequeue, `none` being a failed
`GetQueuedCompletionStatus` (which ends in `exit(1)`), then the switch. -/
def iteration (root : Nat) (s : LoopState) (d : Option Completion) : LoopState :=
  match d with
  | none => { s with log := s.log ++ [LogLine.dequeueFailed], exited := true }
  | some c => handle root s c

/-- The loop `while (!quit) { ... }` run on the outcomes of the successive
dequeues: it stops at `quit`, and at `exit(1)`. -/
def runLoop (root : Nat) (s : LoopState) (ds : List (Option Completion)) : LoopState :=
  match ds with
  | [] => s
  | d :: rest =>
    if s.quit = true ∨ s.exited = true then s
    else runLoop root (iteration root s d) rest

/-- The state in which the loop is entered with the table `t`: `quit` is
`false`, nothing has been closed or written by the loop. -/
def loopEntry (t : Table) : LoopState :=
  { activeProcesses := t, quit := false, closed := [], opened := [], log := [],
    exited := false }

/-- The state in which `wmain` enters the loop: the table built by the launch
step, holding the root's record only. -/
def launchState (root hProcess : Nat) (cmd : List Nat) (ticksStarted : Nat) : LoopState :=
  loopEntry (assign [] root ⟨hProcess, cmd, ticksStarted⟩)

/-- A packet is the `EXIT_PROCESS` notification of the identifier `p`. -/
def isExitOf (p : Nat) (c : Completion) : Prop :=
  c.bytesTransferred = JOB_OBJECT_MSG_EXIT_PROCESS ∧ processId c = p

instance (p : Nat) (c : Completion) : Decidable (isExitOf p c) := by
  unfold isExitOf; infer_instance

/-- A packet is a `NEW_PROCESS` notification of the identifier `p`. -/
def isNewOf (p : Nat) (c : Completion) : Prop :=
  c.bytesTransferred = JOB_OBJECT_MSG_NEW_PROCESS ∧ processId c = p

instance (p : Nat) (c : Completion) : Decidable (isNewOf p c) := by
  unfold isNewOf; infer_instance

/-- A sequence of notifications, as the outcomes of successful dequeues. -/
def notifications (cs : List Completion) : List (Option Completion) :=
  cs.map some

/-! ## The process set of the specification -/

/-- The set of the specification's Process Table invariant, in its words: a
`NEW_PROCESS` of `p` has been observed, and no `EXIT_PROCESS` of `p` has been
observed after the latest `NEW_PROCESS` of `p`. -/
def observedLive (p : Nat) (cs : List Completion) : Prop :=
  ∃ pre c post, cs = pre ++ c :: post ∧ isNewOf p c ∧
    (∀ c' ∈ post, ¬ isNewOf p c') ∧ ∀ c' ∈ post, ¬ isExitOf p c'

/-- The set the table keeps: a `NEW_PROCESS` of `p` whose `OpenProcess`
succeeded has been observed, and no `EXIT_PROCESS` of `p` after it. -/
def openedLive (p : Nat) (cs : List Completion) : Prop :=
  ∃ pre c post, cs = pre ++ c :: post ∧ isNewOf p c ∧ c.openProcess ≠ 0 ∧
    ∀ c' ∈ post, ¬ isExitOf p c'

/-- The state of the loop of `wmain`, entered from the launch state, after the
notifications `cs`. -/
def afterLaunch (root hProcess : Nat) (cmd : List Nat) (ticks : Nat)
    (cs : List Completion) : LoopState :=
  runLoop root (launchState root hProcess cmd ticks) (notifications cs)

/-! ## `wmain`: the command line, the setup and the exit status -/

/-- The test `arg.find(L' ') != std::wstring::npos`; `32` is the space. -/
def needQuotes (arg : List Nat) : Bool :=
  decide (32 ∈ arg)

/-- The body of the loop over `argv[1..]` that builds `cmd`; `34` is the
double quote. -/
def appendArg (cmd arg : List Nat) : List Nat :=
  let cmd1 := if cmd ≠ [] then cmd ++ [32] else cmd
  let cmd2 := if needQuotes arg = true then cmd1 ++ [34] else cmd1
  let cmd3 := cmd2 ++ arg
  if needQuotes arg = true then cmd3 ++ [34] else cmd3

/-- The command string `cmd` built by `wmain` from `argv`. -/
def buildCmd (argv : List (List Nat)) : List Nat :=
  (argv.drop 1).foldl appendArg []

/-- An argument as the specification re-joins it: wrapped in one pair of double
quotes when it contains a space, unchanged otherwise. -/
def quoted (arg : List Nat) : List Nat :=
  if 32 ∈ arg then [34] ++ arg ++ [34] else arg

/-- Strings joined with exactly one space between consecutive ones. -/
def joinWithSpace : List (List Nat) → List Nat
  | [] => []
  | [a] => a
  | a :: b :: rest => a ++ [32] ++ joinWithSpace (b :: rest)

/-- The command string in the words of the specification: the arguments after
the program name, each quoted if it contains a space, joined with one space. -/
def rejoined (argv : List (List Nat)) : List Nat :=
  joinWithSpace ((argv.drop 1).map quoted)

/-- The structure `PROCESS_INFORMATION` filled by `CreateProcessW`. -/
structure PROCESS_INFORMATION where
  hProcess : Nat
  hThread : Nat
  dwProcessId : Nat
  dwThreadId : Nat
deriving DecidableEq

/-- The results of the system calls of one run of `wmain`. -/
structure Env where
  /-- The handle returned by `CreateJobObjectW`; `0` is `nullptr`. -/
  createJobObject : Nat
  /-- The handle returned by `CreateIoCompletionPort`; `0` is `nullptr`. -/
  createIoCompletionPort : Nat
  /-- The result of `SetInformationJobObject`. -/
  setInformationJobObject : Bool
  /-- The result of `CreateProcessW`. -/
  createProcess : Bool
  /-- The out-parameter `rootProcessInfo` of `CreateProcessW`. -/
  rootProcessInfo : PROCESS_INFORMATION
  /-- The result of `AssignProcessToJobObject`. -/
  assignProcessToJobObject : Bool
  /-- The value of `GetTickCount64()` stored in `ticksStarted`. -/
  tickCount : Nat
  /-- The outcomes of the successive calls of `GetQueuedCompletionStatus`;
  `none` is a failed call. -/
  dequeues : List (Option Completion)
  /-- The result of `QueryInformationJobObject`. -/
  queryInformationJobObject : Bool
deriving DecidableEq

/-- The steps of `wmain` that the exit status depends on, and the ones between
them. -/
inductive Step where
  | createJobObject
  | createIoCompletionPort
  | setInformationJobObject
  | createProcess
  | assignProcessToJobObject
  | resumeThread
  | notificationLoop
  | waitForSingleObject
  | queryInformationJobObject
  | report
deriving DecidableEq

/-- How a run of `wmain` ends. -/
structure Outcome where
  /-- The exit status of the process. -/
  status : Nat
  /-- The steps executed, in order. -/
  steps : List Step
  /-- The state in which the notification loop was left, if it was entered. -/
  loop : Option LoopState
deriving DecidableEq

/-- The string a `std::wstring` is built with from `cmd.c_str()`: the
characters before the first NUL. -/
def cStr (w : List Nat) : List Nat :=
  w.takeWhile (fun c => decide (c ≠ 0))

/-- The state in which `wmain` enters its loop, from the results of the launch. -/
def wmainLaunch (env : Env) (argv : List (List Nat)) : LoopState :=
  launchState env.rootProcessInfo.dwProcessId env.rootProcessInfo.hProcess
    (cStr (buildCmd argv)) env.tickCount

/-- The function `wmain`. Each failed setup call ends in
`ShowLastErrorAndExit`, that is `exit(1)`; a failed dequeue does the same from
the loop; a failed final query returns `1`; otherwise control reaches the end
of `wmain`, which is status `0`. The result is `none` when the dequeues run out
with the loop still running: `GetQueuedCompletionStatus` waits with `INFINITE`. -/
def wmain (env : Env) (argv : List (List Nat)) : Option Outcome :=
  if env.createJobObject = 0 then
    some ⟨1, [Step.createJobObject], none⟩
  else if env.createIoCompletionPort = 0 then
    some ⟨1, [Step.createJobObject, Step.createIoCompletionPort], none⟩
  else if env.setInformationJobObject = false then
    some ⟨1, [Step.createJobObject, Step.createIoCompletionPort,
      Step.setInformationJobObject], none⟩
  else if env.createProcess = false then
    some ⟨1, [Step.createJobObject, Step.createIoCompletionPort,
      Step.setInformationJobObject, Step.createProcess], none⟩
  else if env.assignProcessToJobObject = false then
    some ⟨1, [Step.createJobObject, Step.createIoCompletionPort,
      Step.setInformationJobObject, Step.createProcess,
      Step.assignProcessToJobObject], none⟩
  else
    let s := runLoop env.rootProcessInfo.dwProcessId (wmainLaunch env argv) env.dequeues
    if s.exited = true then
      some ⟨1, [Step.createJobObject, Step.createIoCompletionPort,
        Step.setInformationJobObject, Step.createProcess,
        Step.assignProcessToJobObject, Step.resumeThread, Step.notificationLoop], some s⟩
    else if s.quit = true then
      if env.queryInformationJobObject = true then
        some ⟨0, [Step.createJobObject, Step.createIoCompletionPort,
          Step.setInformationJobObject, Step.createProcess,
          Step.assignProcessToJobObject, Step.resumeThread, Step.notificationLoop,
          Step.waitForSingleObject, Step.queryInformationJobObject, Step.report], some s⟩
      else
        some ⟨1, [Step.createJobObject, Step.createIoCompletionPort,
          Step.setInformationJobObject, Step.createProcess,
          Step.assignProcessToJobObject, Step.resumeThread, Step.notificationLoop,
          Step.waitForSingleObject, Step.queryInformationJobObject], some s⟩
    else none

/-- The five setup calls all succeed. -/
def setupOk (env : Env) : Prop :=
  env.createJobObject ≠ 0 ∧ env.createIoCompletionPort ≠ 0 ∧
    env.setInformationJobObject = true ∧ env.createProcess = true ∧
    env.assignProcessToJobObject = true

instance (env : Env) : Decidable (setupOk env) := by
  unfold setupOk; infer_instance

/-- The five setup steps, in the order of `wmain`. -/
def setupSteps : List Step :=
  [Step.createJobObject, Step.createIoCompletionPort, Step.setInformationJobObject,
    Step.createProcess, Step.assignProcessToJobObject]

/-- A run of `wmain` used where the theorems are instantiated: the root is the
process `1` with handle `7`. -/
def sampleEnv (dequeues : List (Option Completion)) (query : Bool) : Env :=
  { createJobObject := 3, createIoCompletionPort := 4, setInformationJobObject := true,
    createProcess := true, rootProcessInfo := ⟨7, 6, 1, 2⟩,
    assignProcessToJobObject := true, tickCount := 0, dequeues := dequeues,
    queryInformationJobObject := query }

/-! ## `FriendlyBytesStr` -/

/-- The constant `KIB`: `1 << 10`. -/
def KIB : Nat := 1 <<< 10

/-- The constant `MIB`: `1 << 20`. -/
def MIB : Nat := 1 <<< 20

/-- The constant `GIB`: `1 << 30`. -/
def GIB : Nat := 1 <<< 30

/-- The number of bits by which `n` exceeds the 53 bits of a `double`
significand, counted by halving at most `fuel` times. -/
def excessBits : Nat → Nat → Nat
  | 0, _ => 0
  | fuel + 1, n => if n < 2 ^ 53 then 0 else excessBits fuel (n / 2) + 1

/-- The conversion `(double)n` of a `uint64_t`: `n` itself when it fits the 53
bits of the significand, else the nearest multiple of `2 ^ sh` for the `sh`
excess bits (at most 11), a tie going to the even significand. The value of the
`double` is an integer and is kept as one. -/
def toDouble (n : Nat) : Nat :=
  let sh := excessBits 11 n
  if sh = 0 then n
  else
    let q := n / 2 ^ sh
    let r := n % 2 ^ sh
    let half := 2 ^ (sh - 1)
    if half < r ∨ (r = half ∧ q % 2 = 1) then (q + 1) * 2 ^ sh else q * 2 ^ sh

/-- The number of tenths printed by the conversion `%0.1f` for the value
`num / den`: the nearest one; `tie t` tells whether the C runtime rounds up a
value that lies halfway between `t` and `t + 1` tenths. -/
def tenths (tie : Nat → Bool) (num den : Nat) : Nat :=
  let t := 10 * num / den
  let r := 10 * num % den
  if den < 2 * r ∨ (2 * r = den ∧ tie t = true) then t + 1 else t

/-- The text printed by `%0.1f` for the value `num / den`: the integer part in
decimal, the point, and one digit. -/
def fixed1 (tie : Nat → Bool) (num den : Nat) : List Char :=
  Nat.toDigits 10 (tenths tie num den / 10) ++
    ['.', Nat.digitChar (tenths tie num den % 10)]

/-- The string built by the constructor `FriendlyBytesStr(uint64_t n)`. The
quotient `(double)n / (double)unit` is exact, the unit being a power of two, so
it is the value `toDouble n / unit`; `(unsigned)n` is `n % 2 ^ 32`. -/
def FriendlyBytesStr (tie : Nat → Bool) (n : Nat) : List Char :=
  if n < KIB then Nat.toDigits 10 (n % 2 ^ 32)
  else if n < MIB then fixed1 tie (toDouble n) KIB ++ [' ', 'K', 'B']
  else if n < GIB then fixed1 tie (toDouble n) MIB ++ [' ', 'M', 'B']
  else fixed1 tie (toDouble n) GIB ++ [' ', 'G', 'B']

/-- The byte-count formatter in the words of the specification: the decimal
digits of `n` below 1024, else `n` divided by the unit, with one digit after the
decimal point and the unit chosen by the thresholds 1024, 1024², 1024³. -/
def friendlyBytesSpec (tie : Nat → Bool) (n : Nat) : List Char :=
  if n < 1024 then Nat.toDigits 10 n
  else if n < 1024 ^ 2 then fixed1 tie n 1024 ++ [' ', 'K', 'B']
  else if n < 1024 ^ 3 then fixed1 tie n (1024 ^ 2) ++ [' ', 'M', 'B']
  else fixed1 tie n (1024 ^ 3) ++ [' ', 'G', 'B']

/-- The tie rule of a runtime that rounds halfway values to the even digit. -/
def tiesToEven (t : Nat) : Bool :=
  decide (t % 2 = 1)

/-- The tie rule of a runtime that rounds halfway values away from zero. -/
def tiesAway (_ : Nat) : Bool :=
  true

/-! ## Handle ownership -/

/-- Some record of the table holds the handle `h`. -/
def owns (t : Table) (h : Nat) : Prop :=
  ∃ p info, find t p = some info ∧ info.processHandle = h

/-- Every `NEW_PROCESS` whose open succeeds, processed by the loop started in
`s`, is for an identifier that has no record at that moment. -/
def announcedFresh (root : Nat) (s : LoopState) (cs : List Completion) : Prop :=
  ∀ pre c post, cs = pre ++ c :: post →
    (runLoop root s (notifications pre)).quit = false →
    c.bytesTransferred = JOB_OBJECT_MSG_NEW_PROCESS → processId c ≠ root →
    c.openProcess ≠ 0 →
    find (runLoop root s (notifications pre)).activeProcesses (processId c) = none

/-- The invariant of the loop on handles, for the root handle `hProcess`. -/
structure HandleInv (root hProcess : Nat) (s : LoopState) : Prop where
  /-- The root's record, while present, holds the launch handle. -/
  rootRecord : ∀ info, find s.activeProcesses root = some info →
    info.processHandle = hProcess
  /-- The launch handle has not been closed. -/
  rootOpen : hProcess ∉ s.closed
  /-- The handle of a record other than the root's was opened by the loop. -/
  recOpened : ∀ p info, p ≠ root → find s.activeProcesses p = some info →
    info.processHandle ∈ s.opened
  /-- The closed handles were opened by the loop. -/
  closedOpened : ∀ h ∈ s.closed, h ∈ s.opened
  /-- No handle has been closed twice. -/
  closedNodup : s.closed.Nodup
  /-- The handle of a record other than the root's has not been closed. -/
  recNotClosed : ∀ p info, p ≠ root → find s.activeProcesses p = some info →
    info.processHandle ∉ s.closed
  /-- Two records other than the root's do not share a handle. -/
  recInj : ∀ p q ip iq, p ≠ root → q ≠ root → find s.activeProcesses p = some ip →
    find s.activeProcesses q = some iq → ip.processHandle = iq.processHandle → p = q

/-- Every handle the loop opened is closed or held by a record other than the
root's. -/
def Covered (root : Nat) (s : LoopState) : Prop :=
  ∀ h ∈ s.opened, h ∈ s.closed ∨
    ∃ p info, p ≠ root ∧ find s.activeProcesses p = some info ∧ info.processHandle = h

/-! ## Concrete packets, used where the theorems are instantiated -/

/-- A packet announcing the process `pid`, whose `OpenProcess` returns `h`. -/
def newProcess (pid h : Nat) : Completion :=
  { bytesTransferred := JOB_OBJECT_MSG_NEW_PROCESS, overlapped := pid, openProcess := h,
    imageNameBuffer := [99, 104, 105, 108, 100, 0], imageNameLength := 5, tickCount := 40,
    memoryInfo := none }

/-- A packet reporting the exit of the process `pid`. -/
def exitProcess (pid : Nat) : Completion :=
  { bytesTransferred := JOB_OBJECT_MSG_EXIT_PROCESS, overlapped := pid, openProcess := 0,
    imageNameBuffer := [], imageNameLength := 0, tickCount := 50, memoryInfo := some 4096 }

/-! ## General facts about the table and the loop -/

theorem erase_nil (k : Nat) : erase [] k = [] := rfl

theorem erase_cons_self (k : Nat) (v : ProcessInfo) (rest : Table) :
    erase ((k, v) :: rest) k = erase rest k := by
  simp [erase, List.filter_cons]

theorem erase_cons_of_ne (k k' : Nat) (v : ProcessInfo) (rest : Table) (h : k' ≠ k) :
    erase ((k', v) :: rest) k = (k', v) :: erase rest k := by
  simp [erase, List.filter_cons, h]

theorem find_cons_self (k : Nat) (v : ProcessInfo) (rest : Table) :
    find ((k, v) :: rest) k = some v := by
  simp [find]

theorem find_cons_of_ne (k k' : Nat) (v : ProcessInfo) (rest : Table) (h : k' ≠ k) :
    find ((k', v) :: rest) k = find rest k := by
  simp [find, h]

theorem find_erase_self (t : Table) (k : Nat) : find (erase t k) k = none := by
  induction t with
  | nil => rfl
  | cons e rest ih =>
    obtain ⟨k', v⟩ := e
    by_cases h : k' = k
    · subst h; rw [erase_cons_self]; exact ih
    · rw [erase_cons_of_ne _ _ _ _ h, find_cons_of_ne _ _ _ _ h]; exact ih

theorem find_erase_of_ne (t : Table) (k q : Nat) (h : q ≠ k) :
    find (erase t k) q = find t q := by
  induction t with
  | nil => rfl
  | cons e rest ih =>
    obtain ⟨k', v⟩ := e
    by_cases h1 : k' = k
    · subst h1
      rw [erase_cons_self, find_cons_of_ne _ _ _ _ (Ne.symm h)]; exact ih
    · rw [erase_cons_of_ne _ _ _ _ h1]
      by_cases h2 : k' = q
      · subst h2; rw [find_cons_self, find_cons_self]
      · rw [find_cons_of_ne _ _ _ _ h2, find_cons_of_ne _ _ _ _ h2]; exact ih

theorem erase_of_find_none (t : Table) (k : Nat) (h : find t k = none) : erase t k = t := by
  induction t with
  | nil => rfl
  | cons e rest ih =>
    obtain ⟨k', v⟩ := e
    by_cases h1 : k' = k
    · subst h1; rw [find_cons_self] at h; cases h
    · rw [find_cons_of_ne _ _ _ _ h1] at h
      rw [erase_cons_of_ne _ _ _ _ h1, ih h]

theorem find_assign_self (t : Table) (k : Nat) (v : ProcessInfo) :
    find (assign t k v) k = some v := by
  unfold assign; exact find_cons_self _ _ _

theorem find_assign_of_ne (t : Table) (k q : Nat) (v : ProcessInfo) (h : q ≠ k) :
    find (assign t k v) q = find t q := by
  unfold assign
  rw [find_cons_of_ne _ _ _ _ (Ne.symm h), find_erase_of_ne t k q h]

theorem mem_keys_iff (t : Table) (k : Nat) : k ∈ keys t ↔ (find t k).isSome = true := by
  induction t with
  | nil => simp [keys, find]
  | cons e rest ih =>
    obtain ⟨k', v⟩ := e
    by_cases h : k' = k
    · subst h; simp [keys, find_cons_self]
    · rw [find_cons_of_ne _ _ _ _ h, ← ih]
      simp [keys, Ne.symm h]

theorem exit_ne_new : JOB_OBJECT_MSG_EXIT_PROCESS ≠ JOB_OBJECT_MSG_NEW_PROCESS := by decide

/-! The branches of `handle`, one equation each. -/

theorem handle_new_root (root : Nat) (s : LoopState) (c : Completion)
    (hk : c.bytesTransferred = JOB_OBJECT_MSG_NEW_PROCESS) (hp : processId c = root) :
    handle root s c = { s with log := s.log ++ [LogLine.newProcess (processId c)] } := by
  simp [handle, hk, hp]

theorem handle_new_opened (root : Nat) (s : LoopState) (c : Completion)
    (hk : c.bytesTransferred = JOB_OBJECT_MSG_NEW_PROCESS) (hp : processId c ≠ root)
    (ho : c.openProcess ≠ 0) :
    handle root s c =
      { s with
        log := s.log ++ [LogLine.newProcess (processId c)]
        opened := s.opened ++ [c.openProcess]
        activeProcesses := assign s.activeProcesses (processId c)
          ⟨c.openProcess, imageName c, c.tickCount⟩ } := by
  simp [handle, hk, hp, ho]

theorem handle_new_failed (root : Nat) (s : LoopState) (c : Completion)
    (hk : c.bytesTransferred = JOB_OBJECT_MSG_NEW_PROCESS) (hp : processId c ≠ root)
    (ho : c.openProcess = 0) :
    handle root s c =
      { s with
        log := s.log ++
          [LogLine.newProcess (processId c), LogLine.failedToOpen (processId c)] } := by
  simp [handle, hk, hp, ho]

theorem handle_exit_found (root : Nat) (s : LoopState) (c : Completion) (info : ProcessInfo)
    (hk : c.bytesTransferred = JOB_OBJECT_MSG_EXIT_PROCESS)
    (hf : find s.activeProcesses (processId c) = some info) :
    handle root s c =
      { s with
        log := s.log ++ [LogLine.terminated (processId c) info.imageName,
          match c.memoryInfo with
          | some peak => LogLine.peakWorkingSet peak
          | none => LogLine.memoryInfoFailed]
        closed := if processId c ≠ root then s.closed ++ [info.processHandle] else s.closed
        activeProcesses := erase s.activeProcesses (processId c)
        quit := if processId c = root then true else s.quit } := by
  simp only [handle, hk, exit_ne_new, if_false, if_true, hf]
  split_ifs <;> rfl

theorem handle_exit_absent (root : Nat) (s : LoopState) (c : Completion)
    (hk : c.bytesTransferred = JOB_OBJECT_MSG_EXIT_PROCESS)
    (hf : find s.activeProcesses (processId c) = none) :
    handle root s c =
      { s with
        log := s.log ++ [LogLine.notFound (processId c)]
        quit := if processId c = root then true else s.quit } := by
  simp only [handle, hk, exit_ne_new, if_false, if_true, hf]
  split_ifs <;> rfl

theorem handle_other (root : Nat) (s : LoopState) (c : Completion)
    (h6 : c.bytesTransferred ≠ JOB_OBJECT_MSG_NEW_PROCESS)
    (h7 : c.bytesTransferred ≠ JOB_OBJECT_MSG_EXIT_PROCESS) :
    handle root s c = s := by
  simp [handle, h6, h7]

/-- The cases of `handle`, as a case analysis on the packet and the table. -/
theorem handle_cases (root : Nat) (s : LoopState) (c : Completion) (P : LoopState → Prop)
    (hNewRoot : c.bytesTransferred = JOB_OBJECT_MSG_NEW_PROCESS → processId c = root →
      P { s with log := s.log ++ [LogLine.newProcess (processId c)] })
    (hNewOpened : c.bytesTransferred = JOB_OBJECT_MSG_NEW_PROCESS → processId c ≠ root →
      c.openProcess ≠ 0 →
      P { s with
          log := s.log ++ [LogLine.newProcess (processId c)]
          opened := s.opened ++ [c.openProcess]
          activeProcesses := assign s.activeProcesses (processId c)
            ⟨c.openProcess, imageName c, c.tickCount⟩ })
    (hNewFailed : c.bytesTransferred = JOB_OBJECT_MSG_NEW_PROCESS → processId c ≠ root →
      c.openProcess = 0 →
      P { s with
          log := s.log ++
            [LogLine.newProcess (processId c), LogLine.failedToOpen (processId c)] })
    (hExitFound : ∀ info, c.bytesTransferred = JOB_OBJECT_MSG_EXIT_PROCESS →
      find s.activeProcesses (processId c) = some info →
      P { s with
          log := s.log ++ [LogLine.terminated (processId c) info.imageName,
            match c.memoryInfo with
            | some peak => LogLine.peakWorkingSet peak
            | none => LogLine.memoryInfoFailed]
          closed := if processId c ≠ root then s.closed ++ [info.processHandle] else s.closed
          activeProcesses := erase s.activeProcesses (processId c)
          quit := if processId c = root then true else s.quit })
    (hExitAbsent : c.bytesTransferred = JOB_OBJECT_MSG_EXIT_PROCESS →
      find s.activeProcesses (processId c) = none →
      P { s with
          log := s.log ++ [LogLine.notFound (processId c)]
          quit := if processId c = root then true else s.quit })
    (hOther : c.bytesTransferred ≠ JOB_OBJECT_MSG_NEW_PROCESS →
      c.bytesTransferred ≠ JOB_OBJECT_MSG_EXIT_PROCESS → P s) :
    P (handle root s c) := by
  by_cases h6 : c.bytesTransferred = JOB_OBJECT_MSG_NEW_PROCESS
  · by_cases hp : processId c = root
    · rw [handle_new_root root s c h6 hp]; exact hNewRoot h6 hp
    · by_cases ho : c.openProcess = 0
      · rw [handle_new_failed root s c h6 hp ho]; exact hNewFailed h6 hp ho
      · rw [handle_new_opened root s c h6 hp ho]; exact hNewOpened h6 hp ho
  · by_cases h7 : c.bytesTransferred = JOB_OBJECT_MSG_EXIT_PROCESS
    · cases hf : find s.activeProcesses (processId c) with
      | none => rw [handle_exit_absent root s c h7 hf]; exact hExitAbsent h7 hf
      | some info => rw [handle_exit_found root s c info h7 hf]; exact hExitFound info h7 hf
    · rw [handle_other root s c h6 h7]; exact hOther h6 h7

theorem handle_quit (root : Nat) (s : LoopState) (c : Completion) :
    (handle root s c).quit = (s.quit || decide (isExitOf root c)) := by
  apply handle_cases root s c (fun r => r.quit = (s.quit || decide (isExitOf root c)))
  · intro hk _; simp [isExitOf, hk, exit_ne_new.symm]
  · intro hk _ _; simp [isExitOf, hk, exit_ne_new.symm]
  · intro hk _ _; simp [isExitOf, hk, exit_ne_new.symm]
  · intro info hk _
    by_cases hr : processId c = root <;> simp [isExitOf, hk, hr]
  · intro hk _
    by_cases hr : processId c = root <;> simp [isExitOf, hk, hr]
  · intro _ h7; simp [isExitOf, h7]

theorem handle_exited (root : Nat) (s : LoopState) (c : Completion) :
    (handle root s c).exited = s.exited := by
  apply handle_cases root s c (fun r => r.exited = s.exited) <;> intros <;> rfl

theorem runLoop_stopped (root : Nat) (s : LoopState) (ds : List (Option Completion))
    (h : s.quit = true ∨ s.exited = true) : runLoop root s ds = s := by
  cases ds with
  | nil => rfl
  | cons d rest => simp [runLoop, h]

theorem runLoop_append (root : Nat) (s : LoopState) (a b : List (Option Completion)) :
    runLoop root s (a ++ b) = runLoop root (runLoop root s a) b := by
  induction a generalizing s with
  | nil => rfl
  | cons d rest ih =>
    by_cases h : s.quit = true ∨ s.exited = true
    · rw [runLoop_stopped root s _ h, runLoop_stopped root s _ h, runLoop_stopped root s _ h]
    · simp only [List.cons_append, runLoop, h, if_false]
      exact ih _

theorem runLoop_exited (root : Nat) (s : LoopState) (cs : List Completion) :
    (runLoop root s (notifications cs)).exited = s.exited := by
  induction cs generalizing s with
  | nil => rfl
  | cons c rest ih =>
    by_cases h : s.quit = true ∨ s.exited = true
    · rw [runLoop_stopped root s _ h]
    · simp only [notifications, List.map_cons, runLoop, h, if_false, iteration]
      have := ih (handle root s c)
      simp only [notifications] at this
      rw [this, handle_exited]

theorem runLoop_quit_iff (root : Nat) (s : LoopState) (cs : List Completion)
    (hq : s.quit = false) (hx : s.exited = false) :
    (runLoop root s (notifications cs)).quit = true ↔ ∃ c ∈ cs, isExitOf root c := by
  induction cs generalizing s with
  | nil => simp [notifications, runLoop, hq]
  | cons c rest ih =>
    have h : ¬ (s.quit = true ∨ s.exited = true) := by simp [hq, hx]
    simp only [notifications, List.map_cons, runLoop, h, if_false, iteration]
    by_cases hc : isExitOf root c
    · have hq1 : (handle root s c).quit = true := by simp [handle_quit, hc]
      rw [runLoop_stopped root _ _ (Or.inl hq1)]
      simp [hq1, hc]
    · have hq1 : (handle root s c).quit = false := by simp [handle_quit, hc, hq]
      have hx1 : (handle root s c).exited = false := by rw [handle_exited]; exact hx
      have := ih (handle root s c) hq1 hx1
      simp only [notifications] at this
      rw [this]
      simp [hc]

/-- While no `EXIT_PROCESS` of the root is among the notifications, the loop is
the left fold of `handle`. -/
theorem runLoop_eq_foldl (root : Nat) (s : LoopState) (cs : List Completion)
    (hq : s.quit = false) (hx : s.exited = false) (hno : ∀ c ∈ cs, ¬ isExitOf root c) :
    runLoop root s (notifications cs) = cs.foldl (handle root) s := by
  induction cs generalizing s with
  | nil => rfl
  | cons c rest ih =>
    have h : ¬ (s.quit = true ∨ s.exited = true) := by simp [hq, hx]
    have hc : ¬ isExitOf root c := hno c (List.mem_cons_self _ _)
    have hq1 : (handle root s c).quit = false := by simp [handle_quit, hc, hq]
    have hx1 : (handle root s c).exited = false := by rw [handle_exited]; exact hx
    simp only [notifications, List.map_cons, runLoop, h, if_false, iteration, List.foldl_cons]
    have := ih (handle root s c) hq1 hx1 (fun c' hc' => hno c' (List.mem_cons_of_mem _ hc'))
    simpa [notifications] using this

/-- Handling a packet other than the root's `EXIT_PROCESS` leaves the root's
record as it is. -/
theorem handle_find_root (root : Nat) (s : LoopState) (c : Completion)
    (hc : ¬ isExitOf root c) :
    find (handle root s c).activeProcesses root = find s.activeProcesses root := by
  apply handle_cases root s c
    (fun r => find r.activeProcesses root = find s.activeProcesses root)
  · intro _ _; rfl
  · intro _ hp _; exact find_assign_of_ne _ _ _ _ (Ne.symm hp)
  · intro _ _ _; rfl
  · intro info hk _
    have hp : root ≠ processId c := fun e => hc ⟨hk, e.symm⟩
    exact find_erase_of_ne _ _ _ hp
  · intro _ _; rfl
  · intro _ _; rfl

theorem foldl_find_root (root : Nat) (s : LoopState) (cs : List Completion)
    (hno : ∀ c ∈ cs, ¬ isExitOf root c) :
    find (cs.foldl (handle root) s).activeProcesses root = find s.activeProcesses root := by
  induction cs generalizing s with
  | nil => rfl
  | cons c rest ih =>
    rw [List.foldl_cons, ih _ (fun c' hc' => hno c' (List.mem_cons_of_mem _ hc')),
      handle_find_root root s c (hno c (List.mem_cons_self _ _))]

/-- With the root's record in the table, handling a packet does not write the
not-found warning for the root. -/
theorem handle_notFound_root (root : Nat) (s : LoopState) (c : Completion) (info : ProcessInfo)
    (hf : find s.activeProcesses root = some info)
    (hl : LogLine.notFound root ∉ s.log) :
    LogLine.notFound root ∉ (handle root s c).log := by
  apply handle_cases root s c (fun r => LogLine.notFound root ∉ r.log)
  · intro _ _; simpa using hl
  · intro _ _ _; simpa using hl
  · intro _ _ _; simpa using hl
  · intro info' _ _
    cases c.memoryInfo <;> simpa using hl
  · intro _ habs
    have hp : root ≠ processId c := by
      intro e; rw [← e, hf] at habs; cases habs
    simpa [hp] using hl
  · intro _ _; exact hl

theorem foldl_notFound_root (root : Nat) (s : LoopState) (cs : List Completion)
    (info : ProcessInfo) (hno : ∀ c ∈ cs, ¬ isExitOf root c)
    (hf : find s.activeProcesses root = some info)
    (hl : LogLine.notFound root ∉ s.log) :
    LogLine.notFound root ∉ (cs.foldl (handle root) s).log := by
  induction cs generalizing s with
  | nil => exact hl
  | cons c rest ih =>
    have hc := hno c (List.mem_cons_self _ _)
    rw [List.foldl_cons]
    apply ih _ (fun c' hc' => hno c' (List.mem_cons_of_mem _ hc'))
    · rw [handle_find_root root s c hc]; exact hf
    · exact handle_notFound_root root s c info hf hl

theorem foldl_quit (root : Nat) (s : LoopState) (cs : List Completion)
    (hno : ∀ c ∈ cs, ¬ isExitOf root c) :
    (cs.foldl (handle root) s).quit = s.quit := by
  induction cs generalizing s with
  | nil => rfl
  | cons c rest ih =>
    rw [List.foldl_cons, ih _ (fun c' hc' => hno c' (List.mem_cons_of_mem _ hc')), handle_quit]
    simp [hno c (List.mem_cons_self _ _)]

theorem foldl_exited (root : Nat) (s : LoopState) (cs : List Completion) :
    (cs.foldl (handle root) s).exited = s.exited := by
  induction cs generalizing s with
  | nil => rfl
  | cons c rest ih => rw [List.foldl_cons, ih, handle_exited]

/-- The loop on a sequence whose first `EXIT_PROCESS` of the root is `c`: the
packets before `c` are folded, `c` is handled, the rest is not read. -/
theorem runLoop_first_root_exit (root : Nat) (s : LoopState) (pre rest : List Completion)
    (c : Completion) (hq : s.quit = false) (hx : s.exited = false)
    (hno : ∀ c' ∈ pre, ¬ isExitOf root c') (hc : isExitOf root c) :
    runLoop root s (notifications (pre ++ c :: rest)) =
      handle root (pre.foldl (handle root) s) c := by
  have h1 : notifications (pre ++ c :: rest) =
      notifications pre ++ (some c :: notifications rest) := by
    simp [notifications]
  rw [h1, runLoop_append, runLoop_eq_foldl root s pre hq hx hno]
  have hq1 : (pre.foldl (handle root) s).quit = false := by rw [foldl_quit root s pre hno]; exact hq
  have hx1 : (pre.foldl (handle root) s).exited = false := by rw [foldl_exited]; exact hx
  have hrun : ¬ ((pre.foldl (handle root) s).quit = true ∨
      (pre.foldl (handle root) s).exited = true) := by simp [hq1, hx1]
  simp only [runLoop, hrun, if_false, iteration]
  apply runLoop_stopped
  left
  rw [handle_quit]; simp [hc]

/-! ## The claims -/

/-- C1 (sole termination condition): from the loop entry with any table, after
any prefix of any notification sequence the loop has terminated (`quit`) if and
only if the prefix holds an `EXIT_PROCESS` of the root's identifier; and once a
prefix has terminated the loop, the notifications after it are not processed,
whatever the table holds. -/
theorem sole_termination_condition (root : Nat) (t : Table) (cs : List Completion) (k : Nat) :
    ((runLoop root (loopEntry t) (notifications (cs.take k))).quit = true ↔
      ∃ c ∈ cs.take k, isExitOf root c) ∧
    ((runLoop root (loopEntry t) (notifications (cs.take k))).quit = true →
      runLoop root (loopEntry t) (notifications cs) =
        runLoop root (loopEntry t) (notifications (cs.take k))) := by
  refine ⟨runLoop_quit_iff root (loopEntry t) (cs.take k) rfl rfl, fun h => ?_⟩
  have hsplit : notifications cs =
      notifications (cs.take k) ++ notifications (cs.drop k) := by
    simp only [notifications, ← List.map_append, List.take_append_drop]
  rw [hsplit, runLoop_append]
  exact runLoop_stopped root _ _ (Or.inl h)

/-- Witness of C1: with root `1` and the records of `2` and `3` in the table,
the loop stops at the root's exit and does not read the exit of `2`. -/
theorem sole_termination_condition_witness :
    find (runLoop 1 (loopEntry [(1, ⟨7, [], 0⟩), (2, ⟨8, [], 0⟩), (3, ⟨9, [], 0⟩)])
        (notifications [exitProcess 1, exitProcess 2])).activeProcesses 2 = some ⟨8, [], 0⟩ ∧
      runLoop 1 (loopEntry [(1, ⟨7, [], 0⟩), (2, ⟨8, [], 0⟩), (3, ⟨9, [], 0⟩)])
        (notifications [exitProcess 1, exitProcess 2]) =
      runLoop 1 (loopEntry [(1, ⟨7, [], 0⟩), (2, ⟨8, [], 0⟩), (3, ⟨9, [], 0⟩)])
        (notifications ([exitProcess 1, exitProcess 2].take 1)) :=
  ⟨by decide,
    (sole_termination_condition 1 [(1, ⟨7, [], 0⟩), (2, ⟨8, [], 0⟩), (3, ⟨9, [], 0⟩)]
      [exitProcess 1, exitProcess 2] 1).2 (by decide)⟩

/-- C2, the claim as stated fails: with root `5` and a table that has no record
for `5`, the `EXIT_PROCESS` of `5` is an exit of an absent identifier, and
handling it sets `quit`, so the loop does not keep running. -/
theorem unknown_exit_counterexample :
    find (loopEntry [(2, ⟨8, [], 0⟩)]).activeProcesses (processId (exitProcess 5)) = none ∧
      (exitProcess 5).bytesTransferred = JOB_OBJECT_MSG_EXIT_PROCESS ∧
      (loopEntry [(2, ⟨8, [], 0⟩)]).quit = false ∧
      (handle 5 (loopEntry [(2, ⟨8, [], 0⟩)]) (exitProcess 5)).quit = true := by
  decide

/-- C2 as amended: handling an `EXIT_PROCESS` of an identifier that is not a key
of the table writes the not-found warning, leaves the table unchanged and closes
no handle; the `quit` flag is unchanged when the identifier is not the root's,
and is set when it is the root's. -/
theorem unknown_exit_amended (root : Nat) (s : LoopState) (c : Completion)
    (hk : c.bytesTransferred = JOB_OBJECT_MSG_EXIT_PROCESS)
    (habs : find s.activeProcesses (processId c) = none) :
    (handle root s c).log = s.log ++ [LogLine.notFound (processId c)] ∧
      (handle root s c).activeProcesses = s.activeProcesses ∧
      (handle root s c).closed = s.closed ∧
      (handle root s c).exited = s.exited ∧
      (processId c ≠ root → (handle root s c).quit = s.quit) ∧
      (processId c = root → (handle root s c).quit = true) := by
  rw [handle_exit_absent root s c hk habs]
  refine ⟨rfl, rfl, rfl, rfl, fun h => ?_, fun h => ?_⟩
  · simp [h]
  · simp [h]

/-- Witness of the amended C2: root `1`, the exit of the unknown identifier `9`. -/
theorem unknown_exit_amended_witness :
    (handle 1 (loopEntry [(1, ⟨7, [], 0⟩)]) (exitProcess 9)).log = [LogLine.notFound 9] ∧
      (handle 1 (loopEntry [(1, ⟨7, [], 0⟩)]) (exitProcess 9)).activeProcesses =
        [(1, ⟨7, [], 0⟩)] ∧
      (handle 1 (loopEntry [(1, ⟨7, [], 0⟩)]) (exitProcess 9)).quit = false :=
  have h := unknown_exit_amended 1 (loopEntry [(1, ⟨7, [], 0⟩)]) (exitProcess 9)
    (by decide) (by decide)
  ⟨h.1, h.2.1, h.2.2.2.2.1 (by decide)⟩

/-- C3 (root-insertion race freedom): from the launch state, as long as no
`EXIT_PROCESS` of the root has been processed, the table holds under the root's
identifier the record inserted at launch, with the launch handle; and whatever
follows, the first `EXIT_PROCESS` of the root finds that record: the loop writes
the root's `terminated` line and never the not-found warning for the root. -/
theorem root_insertion_race_freedom (root hProcess : Nat) (cmd : List Nat) (ticks : Nat)
    (cs : List Completion) (hno : ∀ c ∈ cs, ¬ isExitOf root c) :
    find (runLoop root (launchState root hProcess cmd ticks)
        (notifications cs)).activeProcesses root = some ⟨hProcess, cmd, ticks⟩ ∧
      LogLine.notFound root ∉
        (runLoop root (launchState root hProcess cmd ticks) (notifications cs)).log ∧
      ∀ (c : Completion) (rest : List Completion), isExitOf root c →
        LogLine.terminated root cmd ∈
          (runLoop root (launchState root hProcess cmd ticks)
            (notifications (cs ++ c :: rest))).log ∧
        LogLine.notFound root ∉
          (runLoop root (launchState root hProcess cmd ticks)
            (notifications (cs ++ c :: rest))).log := by
  have hf0 : find (launchState root hProcess cmd ticks).activeProcesses root =
      some ⟨hProcess, cmd, ticks⟩ := find_assign_self _ _ _
  have hl0 : LogLine.notFound root ∉ (launchState root hProcess cmd ticks).log := by
    simp [launchState, loopEntry]
  have hf : find (cs.foldl (handle root) (launchState root hProcess cmd ticks)).activeProcesses
      root = some ⟨hProcess, cmd, ticks⟩ := by
    rw [foldl_find_root root _ cs hno]; exact hf0
  have hl := foldl_notFound_root root _ cs _ hno hf0 hl0
  refine ⟨?_, ?_, ?_⟩
  · rw [runLoop_eq_foldl root _ cs rfl rfl hno]; exact hf
  · rw [runLoop_eq_foldl root _ cs rfl rfl hno]; exact hl
  · intro c rest hc
    rw [runLoop_first_root_exit root _ cs rest c rfl rfl hno hc]
    have hp : processId c = root := hc.2
    have hf1 : find (cs.foldl (handle root)
        (launchState root hProcess cmd ticks)).activeProcesses (processId c) =
        some ⟨hProcess, cmd, ticks⟩ := by rw [hp]; exact hf
    refine ⟨?_, handle_notFound_root root _ c _ hf hl⟩
    rw [handle_exit_found root _ c _ hc.1 hf1]
    simp [hp]

/-- Witness of C3: root `1` launched with handle `7`; a child `2` starts and
exits before the root does. -/
theorem root_insertion_race_freedom_witness :
    find (runLoop 1 (launchState 1 7 [99] 0)
        (notifications [newProcess 1 0, newProcess 2 8, exitProcess 2])).activeProcesses 1 =
      some ⟨7, [99], 0⟩ :=
  (root_insertion_race_freedom 1 7 [99] 0 [newProcess 1 0, newProcess 2 8, exitProcess 2]
    (by decide)).1

/-! ### The key set of the table -/

theorem openedLive_nil (p : Nat) : ¬ openedLive p [] := by
  rintro ⟨pre, c, post, h, _⟩
  cases pre <;> cases h

theorem openedLive_concat (p : Nat) (cs : List Completion) (c : Completion) :
    openedLive p (cs ++ [c]) ↔
      (isNewOf p c ∧ c.openProcess ≠ 0) ∨ (openedLive p cs ∧ ¬ isExitOf p c) := by
  constructor
  · rintro ⟨pre, d, post, h, hn, ho, hpost⟩
    rcases List.eq_nil_or_concat post with hnil | ⟨post', e, hcat⟩
    · subst hnil
      have h2 : cs ++ [c] = pre ++ [d] := h
      obtain ⟨_, hcd⟩ := List.append_inj' h2 rfl
      have : c = d := by simpa using hcd
      subst this
      exact Or.inl ⟨hn, ho⟩
    · subst hcat
      have h2 : cs ++ [c] = (pre ++ d :: post') ++ [e] := by
        rw [h]; simp
      obtain ⟨hcs, hce⟩ := List.append_inj' h2 rfl
      have : c = e := by simpa using hce
      subst this
      refine Or.inr ⟨⟨pre, d, post', hcs, hn, ho, fun c' hc' => hpost c' ?_⟩, hpost c ?_⟩
      · simp [hc']
      · simp
  · rintro (⟨hn, ho⟩ | ⟨⟨pre, d, post, h, hn, ho, hpost⟩, hc⟩)
    · exact ⟨cs, c, [], rfl, hn, ho, by simp⟩
    · refine ⟨pre, d, post ++ [c], by rw [h]; simp, hn, ho, ?_⟩
      intro c' hc'
      rcases List.mem_append.1 hc' with h1 | h1
      · exact hpost c' h1
      · have : c' = c := by simpa using h1
        rw [this]; exact hc

/-- Which keys the table has after one packet. -/
theorem handle_find_isSome (root : Nat) (s : LoopState) (c : Completion) (p : Nat) :
    (find (handle root s c).activeProcesses p).isSome = true ↔
      (p ≠ root ∧ isNewOf p c ∧ c.openProcess ≠ 0) ∨
        ((find s.activeProcesses p).isSome = true ∧ ¬ isExitOf p c) := by
  apply handle_cases root s c (fun r => (find r.activeProcesses p).isSome = true ↔
      (p ≠ root ∧ isNewOf p c ∧ c.openProcess ≠ 0) ∨
        ((find s.activeProcesses p).isSome = true ∧ ¬ isExitOf p c))
  · intro hk hp
    have h1 : ¬ isExitOf p c := fun h => exit_ne_new (h.1.symm.trans hk)
    have h2 : ¬ (p ≠ root ∧ isNewOf p c ∧ c.openProcess ≠ 0) := by
      rintro ⟨hne, hn, _⟩; exact hne (hn.2.symm.trans hp)
    simp [h1, h2]
  · intro hk hp ho
    have h1 : ¬ isExitOf p c := fun h => exit_ne_new (h.1.symm.trans hk)
    by_cases hpc : p = processId c
    · subst hpc
      simp [find_assign_self, isNewOf, hk, hp, ho]
    · have h2 : ¬ isNewOf p c := fun h => hpc h.2.symm
      simp [find_assign_of_ne _ _ _ _ hpc, h1, h2]
  · intro hk hp ho
    have h1 : ¬ isExitOf p c := fun h => exit_ne_new (h.1.symm.trans hk)
    simp [h1, ho]
  · intro info hk hf
    have h2 : ¬ isNewOf p c := fun h => exit_ne_new (hk.symm.trans h.1)
    by_cases hpc : p = processId c
    · subst hpc
      simp [find_erase_self, isExitOf, hk, h2]
    · have h1 : ¬ isExitOf p c := fun h => hpc h.2.symm
      simp [find_erase_of_ne _ _ _ hpc, h1, h2]
  · intro hk hf
    have h2 : ¬ isNewOf p c := fun h => exit_ne_new (hk.symm.trans h.1)
    by_cases hpc : p = processId c
    · subst hpc
      simp [hf, h2]
    · have h1 : ¬ isExitOf p c := fun h => hpc h.2.symm
      simp [h1, h2]
  · intro h6 h7
    have h1 : ¬ isExitOf p c := fun h => h7 h.1
    have h2 : ¬ isNewOf p c := fun h => h6 h.1
    simp [h1, h2]

theorem foldl_concat (root : Nat) (s : LoopState) (cs : List Completion) (c : Completion) :
    (cs ++ [c]).foldl (handle root) s = handle root (cs.foldl (handle root) s) c := by
  simp [List.foldl_append]

theorem foldl_find_isSome (root hProcess : Nat) (cmd : List Nat) (ticks : Nat)
    (cs : List Completion) (hno : ∀ c ∈ cs, ¬ isExitOf root c) (p : Nat) :
    (find (cs.foldl (handle root) (launchState root hProcess cmd ticks)).activeProcesses
        p).isSome = true ↔ p = root ∨ openedLive p cs := by
  induction cs using List.reverseRecOn with
  | nil =>
    have h0 := openedLive_nil p
    by_cases hp : p = root
    · subst hp; simp [launchState, loopEntry, find_assign_self]
    · simp [launchState, loopEntry, find_assign_of_ne _ _ _ _ hp, find, hp, h0]
      exact fun e => hp e.symm
  | append_singleton cs c ih =>
    have hno' : ∀ c' ∈ cs, ¬ isExitOf root c' := fun c' hc' =>
      hno c' (List.mem_append.2 (Or.inl hc'))
    have hc : ¬ isExitOf root c := hno c (by simp)
    rw [foldl_concat, handle_find_isSome, ih hno', openedLive_concat]
    by_cases hp : p = root
    · subst hp; simp [hc]
    · simp only [hp, false_or, ne_eq, not_false_eq_true, true_and]

/-- C4, the claim as stated fails: with root `1`, after a `NEW_PROCESS` of `2`
whose `OpenProcess` fails, the loop is still running and `2` is in the set of
the specification, but `2` is not a key of the table. -/
theorem process_table_invariant_counterexample :
    (∀ c ∈ [newProcess 2 0], ¬ isExitOf 1 c) ∧
      observedLive 2 [newProcess 2 0] ∧
      2 ∉ keys (runLoop 1 (launchState 1 7 [99] 0)
        (notifications [newProcess 2 0])).activeProcesses :=
  ⟨by decide, ⟨[], newProcess 2 0, [], rfl, by decide, by simp, by simp⟩, by decide⟩

/-- C4 as amended: from the launch state, after any notification sequence
without an `EXIT_PROCESS` of the root (the loop still running), the keys of the
table are exactly the root's identifier together with the identifiers `p` for
which a `NEW_PROCESS` with a successful `OpenProcess` has been observed and no
`EXIT_PROCESS` of `p` after it. -/
theorem process_table_invariant_amended (root hProcess : Nat) (cmd : List Nat) (ticks : Nat)
    (cs : List Completion) (hno : ∀ c ∈ cs, ¬ isExitOf root c) (p : Nat) :
    p ∈ keys (runLoop root (launchState root hProcess cmd ticks)
        (notifications cs)).activeProcesses ↔ p = root ∨ openedLive p cs := by
  rw [runLoop_eq_foldl root _ cs rfl rfl hno, mem_keys_iff]
  exact foldl_find_isSome root hProcess cmd ticks cs hno p

/-- Witness of the amended C4: root `1`; `2` is opened, `3` fails to open, `2`
exits and is announced again; `2` is a key of the table. -/
theorem process_table_invariant_amended_witness :
    2 ∈ keys (runLoop 1 (launchState 1 7 [99] 0)
      (notifications [newProcess 2 8, newProcess 3 0, exitProcess 2,
        newProcess 2 9])).activeProcesses :=
  (process_table_invariant_amended 1 7 [99] 0
    [newProcess 2 8, newProcess 3 0, exitProcess 2, newProcess 2 9] (by decide) 2).2
    (Or.inr ⟨[newProcess 2 8, newProcess 3 0, exitProcess 2], newProcess 2 9, [], rfl,
      by decide, by decide, by simp⟩)

/-! ### Identifier reuse and failed opens -/

/-- A running loop handed one notification handles it. -/
theorem runLoop_singleton (root : Nat) (s : LoopState) (c : Completion)
    (hq : s.quit = false) (hx : s.exited = false) :
    runLoop root s (notifications [c]) = handle root s c := by
  simp [notifications, runLoop, iteration, hq, hx]

/-- A running loop handles the first notification and goes on with the rest,
as long as that notification is not the root's exit. -/
theorem runLoop_cons (root : Nat) (s : LoopState) (c : Completion) (cs : List Completion)
    (hq : s.quit = false) (hx : s.exited = false) :
    runLoop root s (notifications (c :: cs)) =
      runLoop root (handle root s c) (notifications cs) := by
  simp [notifications, runLoop, iteration, hq, hx]

/-- An identifier without a record stays without one as long as no
`NEW_PROCESS` of it with a successful open is handled. -/
theorem foldl_find_none (root : Nat) (s : LoopState) (cs : List Completion) (p : Nat)
    (hf : find s.activeProcesses p = none)
    (hnew : ∀ c ∈ cs, ¬ (isNewOf p c ∧ c.openProcess ≠ 0)) :
    find (cs.foldl (handle root) s).activeProcesses p = none := by
  induction cs generalizing s with
  | nil => exact hf
  | cons c rest ih =>
    rw [List.foldl_cons]
    apply ih _ _ (fun c' hc' => hnew c' (List.mem_cons_of_mem _ hc'))
    have h := handle_find_isSome root s c p
    have hc := hnew c (List.mem_cons_self _ _)
    cases hfind : find (handle root s c).activeProcesses p with
    | none => rfl
    | some v =>
      rw [hfind, hf] at h
      have := h.1 rfl
      rcases this with ⟨_, h1, h2⟩ | ⟨h1, _⟩
      · exact absurd ⟨h1, h2⟩ hc
      · cases h1

/-- C5 (identifier reuse safety): in a running loop, the `EXIT_PROCESS` of a
non-root identifier that has a record leaves the table without a record for it
and with every other record unchanged; and when, after any further notifications
that do not end the loop, a `NEW_PROCESS` of the same identifier is processed
with a successful open, the record then stored consists of the new handle, the
new image name and the new tick count only. -/
theorem identifier_reuse_safety (root : Nat) (s : LoopState) (x : Completion)
    (info : ProcessInfo) (hq : s.quit = false) (hx : s.exited = false)
    (hk : x.bytesTransferred = JOB_OBJECT_MSG_EXIT_PROCESS) (hp : processId x ≠ root)
    (hf : find s.activeProcesses (processId x) = some info) :
    find (runLoop root s (notifications [x])).activeProcesses (processId x) = none ∧
      (∀ q, q ≠ processId x →
        find (runLoop root s (notifications [x])).activeProcesses q =
          find s.activeProcesses q) ∧
      ∀ (mid : List Completion) (n : Completion),
        (∀ c ∈ mid, ¬ isExitOf root c) → isNewOf (processId x) n → n.openProcess ≠ 0 →
        find (runLoop root s (notifications (x :: (mid ++ [n])))).activeProcesses
            (processId x) = some ⟨n.openProcess, imageName n, n.tickCount⟩ := by
  have hstep := handle_exit_found root s x info hk hf
  have hxr : ¬ isExitOf root x := fun h => hp h.2
  refine ⟨?_, ?_, ?_⟩
  · rw [runLoop_singleton root s x hq hx, hstep]
    exact find_erase_self _ _
  · intro q hqne
    rw [runLoop_singleton root s x hq hx, hstep]
    exact find_erase_of_ne _ _ _ hqne
  · intro mid n hmid hn ho
    have hno : ∀ c ∈ x :: (mid ++ [n]), ¬ isExitOf root c := by
      intro c hc
      rcases List.mem_cons.1 hc with h | h
      · rw [h]; exact hxr
      · rcases List.mem_append.1 h with h | h
        · exact hmid c h
        · have : c = n := by simpa using h
          rw [this]
          exact fun he => exit_ne_new (he.1.symm.trans hn.1)
    rw [runLoop_eq_foldl root s _ hq hx hno, List.foldl_cons, foldl_concat]
    have hpn : processId n ≠ root := by rw [hn.2]; exact hp
    rw [handle_new_opened root _ n hn.1 hpn ho, ← hn.2]
    exact find_assign_self _ _ _

/-- Witness of C5: root `1`; the process `2` (handle `8`) exits, `3` is
announced, and the identifier `2` is announced again with handle `9`. -/
theorem identifier_reuse_safety_witness :
    find (runLoop 1 (loopEntry [(1, ⟨7, [], 0⟩), (2, ⟨8, [111], 3⟩)])
        (notifications (exitProcess 2 :: ([newProcess 3 5] ++ [newProcess 2 9])))).activeProcesses
        (processId (exitProcess 2)) =
      some ⟨9, imageName (newProcess 2 9), (newProcess 2 9).tickCount⟩ :=
  (identifier_reuse_safety 1 (loopEntry [(1, ⟨7, [], 0⟩), (2, ⟨8, [111], 3⟩)]) (exitProcess 2)
    ⟨8, [111], 3⟩ rfl rfl (by decide) (by decide) (by decide)).2.2
    [newProcess 3 5] (newProcess 2 9) (by decide) (by decide) (by decide)

/-- C10 (recoverable open failure): in a running loop, a `NEW_PROCESS` of a
non-root identifier whose `OpenProcess` fails writes the warning and leaves the
table, the `quit` flag and the closed handles unchanged, the loop still running;
and if the identifier had no record, then after any further notifications that
neither end the loop nor announce it with a successful open, its `EXIT_PROCESS`
takes the not-found branch: the warning is written, the table is unchanged and
the loop keeps running. -/
theorem recoverable_open_failure (root : Nat) (s : LoopState) (n : Completion)
    (hq : s.quit = false) (hx : s.exited = false)
    (hk : n.bytesTransferred = JOB_OBJECT_MSG_NEW_PROCESS) (hp : processId n ≠ root)
    (ho : n.openProcess = 0) :
    (runLoop root s (notifications [n])).activeProcesses = s.activeProcesses ∧
      (runLoop root s (notifications [n])).quit = false ∧
      (runLoop root s (notifications [n])).exited = false ∧
      (runLoop root s (notifications [n])).closed = s.closed ∧
      (runLoop root s (notifications [n])).log =
        s.log ++ [LogLine.newProcess (processId n), LogLine.failedToOpen (processId n)] ∧
      (find s.activeProcesses (processId n) = none →
        ∀ (mid : List Completion) (x : Completion),
          (∀ c ∈ mid, ¬ isExitOf root c) →
          (∀ c ∈ mid, ¬ (isNewOf (processId n) c ∧ c.openProcess ≠ 0)) →
          isExitOf (processId n) x →
          (runLoop root s (notifications (n :: (mid ++ [x])))).activeProcesses =
              (runLoop root s (notifications (n :: mid))).activeProcesses ∧
            (runLoop root s (notifications (n :: (mid ++ [x])))).log =
              (runLoop root s (notifications (n :: mid))).log ++
                [LogLine.notFound (processId n)] ∧
            (runLoop root s (notifications (n :: (mid ++ [x])))).closed =
              (runLoop root s (notifications (n :: mid))).closed ∧
            (runLoop root s (notifications (n :: (mid ++ [x])))).quit = false) := by
  have hstep := handle_new_failed root s n hk hp ho
  have hnr : ¬ isExitOf root n := fun h => exit_ne_new (h.1.symm.trans hk)
  rw [runLoop_singleton root s n hq hx, hstep]
  refine ⟨rfl, hq, hx, rfl, rfl, ?_⟩
  intro habs mid x hmid hnew hxe
  have hxr : ¬ isExitOf root x := fun h => hp (hxe.2.symm.trans h.2)
  have hno1 : ∀ c ∈ n :: mid, ¬ isExitOf root c := by
    intro c hc
    rcases List.mem_cons.1 hc with h | h
    · rw [h]; exact hnr
    · exact hmid c h
  have hno2 : ∀ c ∈ n :: (mid ++ [x]), ¬ isExitOf root c := by
    intro c hc
    rcases List.mem_cons.1 hc with h | h
    · rw [h]; exact hnr
    · rcases List.mem_append.1 h with h | h
      · exact hmid c h
      · have : c = x := by simpa using h
        rw [this]; exact hxr
  have hnone : find ((n :: mid).foldl (handle root) s).activeProcesses (processId x) = none := by
    rw [hxe.2]
    apply foldl_find_none root s (n :: mid) (processId n) habs
    intro c hc
    rcases List.mem_cons.1 hc with h | h
    · rw [h]; exact fun hh => hh.2 ho
    · exact hnew c h
  have hcat : n :: (mid ++ [x]) = (n :: mid) ++ [x] := rfl
  rw [runLoop_eq_foldl root s _ hq hx hno2, runLoop_eq_foldl root s _ hq hx hno1, hcat,
    foldl_concat, handle_exit_absent root _ x hxe.1 hnone]
  have hq2 : ((n :: mid).foldl (handle root) s).quit = false := by
    rw [foldl_quit root s _ hno1]; exact hq
  have hpx : processId x ≠ root := by rw [hxe.2]; exact hp
  refine ⟨rfl, ?_, rfl, ?_⟩
  · simp [hxe.2]
  · simpa [hpx] using hq2

/-- Witness of C10: root `1`; the open of `2` fails, `3` is announced, then the
exit of `2` arrives. -/
theorem recoverable_open_failure_witness :
    (runLoop 1 (launchState 1 7 [99] 0)
        (notifications (newProcess 2 0 :: ([newProcess 3 5] ++ [exitProcess 2])))).log =
      (runLoop 1 (launchState 1 7 [99] 0)
        (notifications (newProcess 2 0 :: [newProcess 3 5]))).log ++
        [LogLine.notFound (processId (newProcess 2 0))] :=
  ((recoverable_open_failure 1 (launchState 1 7 [99] 0) (newProcess 2 0) rfl rfl
    (by decide) (by decide) (by decide)).2.2.2.2.2 (by decide)
    [newProcess 3 5] (exitProcess 2) (by decide) (by decide) (by decide)).2.1

/-! ### Handles -/

theorem find_assign (t : Table) (k q : Nat) (v : ProcessInfo) :
    find (assign t k v) q = if q = k then some v else find t q := by
  by_cases h : q = k
  · subst h; simp [find_assign_self]
  · simp [h, find_assign_of_ne _ _ _ _ h]

theorem find_erase (t : Table) (k q : Nat) :
    find (erase t k) q = if q = k then none else find t q := by
  by_cases h : q = k
  · subst h; simp [find_erase_self]
  · simp [h, find_erase_of_ne _ _ _ h]

theorem handleInv_step (root hProcess : Nat) (s : LoopState) (c : Completion)
    (hI : HandleInv root hProcess s)
    (hn : (hProcess :: (handle root s c).opened).Nodup) :
    HandleInv root hProcess (handle root s c) := by
  revert hn
  apply handle_cases root s c
    (fun r => (hProcess :: r.opened).Nodup → HandleInv root hProcess r)
  · intro _ _ _
    exact ⟨hI.rootRecord, hI.rootOpen, hI.recOpened, hI.closedOpened, hI.closedNodup,
      hI.recNotClosed, hI.recInj⟩
  · intro _ hp ho hn
    have hn1 : hProcess ∉ s.opened ++ [c.openProcess] := (List.nodup_cons.1 hn).1
    have hn2 : (s.opened ++ [c.openProcess]).Nodup := (List.nodup_cons.1 hn).2
    have hfresh : c.openProcess ∉ s.opened := by
      intro hmem
      have := List.disjoint_of_nodup_append hn2 hmem
      exact this (by simp)
    refine ⟨?_, hI.rootOpen, ?_, ?_, hI.closedNodup, ?_, ?_⟩
    · intro info hf
      simp only [find_assign, if_neg (Ne.symm hp)] at hf
      exact hI.rootRecord info hf
    · intro p info hpr hf
      simp only [find_assign] at hf
      by_cases hpc : p = processId c
      · simp only [hpc, if_true, Option.some.injEq] at hf
        rw [← hf]; simp
      · simp only [hpc, if_false] at hf
        exact List.mem_append.2 (Or.inl (hI.recOpened p info hpr hf))
    · intro h hh
      exact List.mem_append.2 (Or.inl (hI.closedOpened h hh))
    · intro p info hpr hf
      simp only [find_assign] at hf
      by_cases hpc : p = processId c
      · simp only [hpc, if_true, Option.some.injEq] at hf
        rw [← hf]
        exact fun hcl => hfresh (hI.closedOpened _ hcl)
      · simp only [hpc, if_false] at hf
        exact hI.recNotClosed p info hpr hf
    · intro p q ip iq hpr hqr hfp hfq heq
      simp only [find_assign] at hfp hfq
      by_cases hpc : p = processId c
      · by_cases hqc : q = processId c
        · rw [hpc, hqc]
        · simp only [hpc, if_true, Option.some.injEq] at hfp
          simp only [hqc, if_false] at hfq
          have := hI.recOpened q iq hqr hfq
          rw [← heq, ← hfp] at this
          exact absurd this hfresh
      · simp only [hpc, if_false] at hfp
        by_cases hqc : q = processId c
        · simp only [hqc, if_true, Option.some.injEq] at hfq
          have := hI.recOpened p ip hpr hfp
          rw [heq, ← hfq] at this
          exact absurd this hfresh
        · simp only [hqc, if_false] at hfq
          exact hI.recInj p q ip iq hpr hqr hfp hfq heq
  · intro _ _ _ _
    exact ⟨hI.rootRecord, hI.rootOpen, hI.recOpened, hI.closedOpened, hI.closedNodup,
      hI.recNotClosed, hI.recInj⟩
  · intro info _ hf hn
    have hn1 : hProcess ∉ s.opened := (List.nodup_cons.1 hn).1
    have hsub : ∀ p i, find (erase s.activeProcesses (processId c)) p = some i →
        p ≠ processId c ∧ find s.activeProcesses p = some i := by
      intro p i hfp
      simp only [find_erase] at hfp
      by_cases hpc : p = processId c
      · simp [hpc] at hfp
      · simp only [hpc, if_false] at hfp
        exact ⟨hpc, hfp⟩
    by_cases hr : processId c = root
    · refine ⟨?_, ?_, ?_, ?_, ?_, ?_, ?_⟩
      · intro i hfi; exact hI.rootRecord i (hsub root i hfi).2
      · simpa [hr] using hI.rootOpen
      · intro p i hpr hfi; exact hI.recOpened p i hpr (hsub p i hfi).2
      · intro h hh
        have : h ∈ s.closed := by simpa [hr] using hh
        exact hI.closedOpened h this
      · simpa [hr] using hI.closedNodup
      · intro p i hpr hfi
        have := hI.recNotClosed p i hpr (hsub p i hfi).2
        simpa [hr] using this
      · intro p q ip iq hpr hqr hfp hfq heq
        exact hI.recInj p q ip iq hpr hqr (hsub p ip hfp).2 (hsub q iq hfq).2 heq
    · have hio : info.processHandle ∈ s.opened := hI.recOpened _ info hr hf
      have hic : info.processHandle ∉ s.closed := hI.recNotClosed _ info hr hf
      refine ⟨?_, ?_, ?_, ?_, ?_, ?_, ?_⟩
      · intro i hfi; exact hI.rootRecord i (hsub root i hfi).2
      · have hne : hProcess ≠ info.processHandle := fun e => hn1 (e ▸ hio)
        simpa [hr, hne] using hI.rootOpen
      · intro p i hpr hfi; exact hI.recOpened p i hpr (hsub p i hfi).2
      · intro h hh
        have : h ∈ s.closed ∨ h = info.processHandle := by simpa [hr] using hh
        rcases this with h1 | h1
        · exact hI.closedOpened h h1
        · rw [h1]; exact hio
      · have : (s.closed ++ [info.processHandle]).Nodup := by
          rw [List.nodup_append]
          refine ⟨hI.closedNodup, by simp, ?_⟩
          intro a ha hb
          have : a = info.processHandle := by simpa using hb
          exact hic (this ▸ ha)
        simpa [hr] using this
      · intro p i hpr hfi
        obtain ⟨hpc, hfs⟩ := hsub p i hfi
        have h1 := hI.recNotClosed p i hpr hfs
        have h2 : i.processHandle ≠ info.processHandle := by
          intro e
          exact hpc (hI.recInj p (processId c) i info hpr hr hfs hf e)
        simpa [hr, h2] using h1
      · intro p q ip iq hpr hqr hfp hfq heq
        exact hI.recInj p q ip iq hpr hqr (hsub p ip hfp).2 (hsub q iq hfq).2 heq
  · intro _ _ _
    exact ⟨hI.rootRecord, hI.rootOpen, hI.recOpened, hI.closedOpened, hI.closedNodup,
      hI.recNotClosed, hI.recInj⟩
  · intro _ _ _
    exact hI

theorem covered_step (root : Nat) (s : LoopState) (c : Completion)
    (hC : Covered root s)
    (hfresh : c.bytesTransferred = JOB_OBJECT_MSG_NEW_PROCESS → processId c ≠ root →
      c.openProcess ≠ 0 → find s.activeProcesses (processId c) = none) :
    Covered root (handle root s c) := by
  apply handle_cases root s c (fun r => Covered root r)
  · intro _ _; exact hC
  · intro hk hp ho h hh
    have habs := hfresh hk hp ho
    rcases List.mem_append.1 hh with h1 | h1
    · rcases hC h h1 with h2 | ⟨p, info, hpr, hf, he⟩
      · exact Or.inl h2
      · refine Or.inr ⟨p, info, hpr, ?_, he⟩
        have hpc : p ≠ processId c := by
          intro e; rw [e, habs] at hf; cases hf
        simp only [find_assign, hpc, if_false]
        exact hf
    · have he : h = c.openProcess := by simpa using h1
      refine Or.inr ⟨processId c, ⟨c.openProcess, imageName c, c.tickCount⟩, hp, ?_, he.symm⟩
      simp [find_assign]
  · intro _ _ _; exact hC
  · intro info _ hf h hh
    rcases hC h hh with h2 | ⟨p, i, hpr, hfp, he⟩
    · left
      by_cases hr : processId c = root
      · simpa [hr] using h2
      · simp [hr, h2]
    · by_cases hpc : p = processId c
      · left
        have hr : processId c ≠ root := hpc ▸ hpr
        rw [hpc, hf] at hfp
        have : info = i := by simpa using hfp
        simp [hr, this, he]
      · right
        refine ⟨p, i, hpr, ?_, he⟩
        simp only [find_erase, hpc, if_false]
        exact hfp
  · intro _ _; exact hC
  · intro _ _; exact hC

theorem handle_opened_extends (root : Nat) (s : LoopState) (c : Completion) :
    ∃ l, (handle root s c).opened = s.opened ++ l := by
  apply handle_cases root s c (fun r => ∃ l, r.opened = s.opened ++ l)
  · intro _ _; exact ⟨[], by simp⟩
  · intro _ _ _; exact ⟨[c.openProcess], rfl⟩
  · intro _ _ _; exact ⟨[], by simp⟩
  · intro _ _ _; exact ⟨[], by simp⟩
  · intro _ _; exact ⟨[], by simp⟩
  · intro _ _; exact ⟨[], by simp⟩

theorem runLoop_opened_extends (root : Nat) (s : LoopState) (cs : List Completion) :
    ∃ l, (runLoop root s (notifications cs)).opened = s.opened ++ l := by
  induction cs generalizing s with
  | nil => exact ⟨[], by simp [notifications, runLoop]⟩
  | cons c rest ih =>
    by_cases h : s.quit = true ∨ s.exited = true
    · rw [runLoop_stopped root s _ h]; exact ⟨[], by simp⟩
    · have hq : s.quit = false := by
        cases hs : s.quit
        · rfl
        · exact absurd (Or.inl hs) h
      have hx : s.exited = false := by
        cases hs : s.exited
        · rfl
        · exact absurd (Or.inr hs) h
      rw [runLoop_cons root s c rest hq hx]
      obtain ⟨l1, h1⟩ := handle_opened_extends root s c
      obtain ⟨l2, h2⟩ := ih (handle root s c)
      exact ⟨l1 ++ l2, by rw [h2, h1, List.append_assoc]⟩

theorem nodup_cons_of_append_left (a : Nat) (xs l : List Nat) (h : (a :: (xs ++ l)).Nodup) :
    (a :: xs).Nodup := by
  have h1 := List.nodup_cons.1 h
  exact List.nodup_cons.2
    ⟨fun hm => h1.1 (List.mem_append.2 (Or.inl hm)), (List.nodup_append.1 h1.2).1⟩

theorem runLoop_handleInv (root hProcess : Nat) (cs : List Completion) (s : LoopState)
    (hx : s.exited = false) (hI : HandleInv root hProcess s)
    (hn : (hProcess :: (runLoop root s (notifications cs)).opened).Nodup) :
    HandleInv root hProcess (runLoop root s (notifications cs)) := by
  induction cs generalizing s with
  | nil => exact hI
  | cons c rest ih =>
    cases hq : s.quit with
    | true => rw [runLoop_stopped root s _ (Or.inl hq)]; exact hI
    | false =>
      rw [runLoop_cons root s c rest hq hx] at hn ⊢
      obtain ⟨l, hl⟩ := runLoop_opened_extends root (handle root s c) rest
      rw [hl] at hn
      have hn1 := nodup_cons_of_append_left _ _ _ hn
      rw [← hl] at hn
      exact ih (handle root s c) (by rw [handle_exited]; exact hx)
        (handleInv_step root hProcess s c hI hn1) hn

theorem announcedFresh_cons (root : Nat) (s : LoopState) (c : Completion)
    (rest : List Completion) (hq : s.quit = false) (hx : s.exited = false)
    (h : announcedFresh root s (c :: rest)) :
    (c.bytesTransferred = JOB_OBJECT_MSG_NEW_PROCESS → processId c ≠ root →
      c.openProcess ≠ 0 → find s.activeProcesses (processId c) = none) ∧
    announcedFresh root (handle root s c) rest := by
  constructor
  · intro hk hp ho
    exact h [] c rest rfl hq hk hp ho
  · intro pre c' post hsplit hq' hk hp ho
    have := h (c :: pre) c' post (by rw [hsplit]; rfl)
    rw [runLoop_cons root s c pre hq hx] at this
    exact this hq' hk hp ho

theorem runLoop_covered (root : Nat) (cs : List Completion) (s : LoopState)
    (hx : s.exited = false) (hC : Covered root s) (hA : announcedFresh root s cs) :
    Covered root (runLoop root s (notifications cs)) := by
  induction cs generalizing s with
  | nil => exact hC
  | cons c rest ih =>
    cases hq : s.quit with
    | true => rw [runLoop_stopped root s _ (Or.inl hq)]; exact hC
    | false =>
      rw [runLoop_cons root s c rest hq hx]
      obtain ⟨h1, h2⟩ := announcedFresh_cons root s c rest hq hx hA
      exact ih (handle root s c) (by rw [handle_exited]; exact hx)
        (covered_step root s c hC h1) h2

theorem launchState_handleInv (root hProcess : Nat) (cmd : List Nat) (ticks : Nat) :
    HandleInv root hProcess (launchState root hProcess cmd ticks) := by
  have hfind : ∀ p info, find (launchState root hProcess cmd ticks).activeProcesses p =
      some info → p = root ∧ info.processHandle = hProcess := by
    intro p info hf
    have hf' : find (assign [] root ⟨hProcess, cmd, ticks⟩) p = some info := hf
    rw [find_assign] at hf'
    by_cases hp : p = root
    · rw [if_pos hp] at hf'
      have : (⟨hProcess, cmd, ticks⟩ : ProcessInfo) = info := by simpa using hf'
      exact ⟨hp, by rw [← this]⟩
    · rw [if_neg hp] at hf'
      cases hf'
  refine ⟨fun i hf => (hfind root i hf).2, by simp [launchState, loopEntry], ?_, ?_, ?_, ?_, ?_⟩
  · intro p i hp hf; exact absurd (hfind p i hf).1 hp
  · intro h hh; simp [launchState, loopEntry] at hh
  · simp [launchState, loopEntry]
  · intro p i hp hf; exact absurd (hfind p i hf).1 hp
  · intro p q ip iq hp _ hf; exact absurd (hfind p ip hf).1 hp

/-- C9, the claim as stated fails: with root `1` (launch handle `7`), two
`NEW_PROCESS` notifications of `2` whose opens return the fresh handles `8` and
`9`: the handle `8` was opened by the loop, has not been closed, and is held by
no record of the table. -/
theorem handle_release_counterexample :
    (7 :: (afterLaunch 1 7 [99] 0 [newProcess 2 8, newProcess 2 9]).opened).Nodup ∧
      8 ∈ (afterLaunch 1 7 [99] 0 [newProcess 2 8, newProcess 2 9]).opened ∧
      8 ∉ (afterLaunch 1 7 [99] 0 [newProcess 2 8, newProcess 2 9]).closed ∧
      ∀ e ∈ (afterLaunch 1 7 [99] 0 [newProcess 2 8, newProcess 2 9]).activeProcesses,
        e.2.processHandle ≠ 8 := by
  decide

/-- C9 as amended: for every notification sequence in which each successful
open returned a fresh handle, (a) the loop never closes the root's handle;
(b) the `EXIT_PROCESS` of a non-root identifier with a record closes the handle
of that record and no other, and removes the record; (c) no handle is closed
twice, every closed handle is one the loop opened and is held by no record, and,
when no `NEW_PROCESS` with a successful open arrives for an identifier that
already has a record, every handle the loop opened is either closed or held by
a record. -/
theorem handle_release_amended (root hProcess : Nat) (cmd : List Nat) (ticks : Nat)
    (cs : List Completion)
    (hfresh : (hProcess :: (afterLaunch root hProcess cmd ticks cs).opened).Nodup) :
    hProcess ∉ (afterLaunch root hProcess cmd ticks cs).closed ∧
      (∀ (x : Completion) (info : ProcessInfo),
        x.bytesTransferred = JOB_OBJECT_MSG_EXIT_PROCESS → processId x ≠ root →
        find (afterLaunch root hProcess cmd ticks cs).activeProcesses (processId x) =
          some info →
        (handle root (afterLaunch root hProcess cmd ticks cs) x).closed =
            (afterLaunch root hProcess cmd ticks cs).closed ++ [info.processHandle] ∧
          find (handle root (afterLaunch root hProcess cmd ticks cs) x).activeProcesses
            (processId x) = none) ∧
      (afterLaunch root hProcess cmd ticks cs).closed.Nodup ∧
      (∀ h ∈ (afterLaunch root hProcess cmd ticks cs).closed,
        h ∈ (afterLaunch root hProcess cmd ticks cs).opened ∧
          ¬ owns (afterLaunch root hProcess cmd ticks cs).activeProcesses h) ∧
      (announcedFresh root (launchState root hProcess cmd ticks) cs →
        ∀ h ∈ (afterLaunch root hProcess cmd ticks cs).opened,
          h ∈ (afterLaunch root hProcess cmd ticks cs).closed ∨
            owns (afterLaunch root hProcess cmd ticks cs).activeProcesses h) := by
  have hI : HandleInv root hProcess (afterLaunch root hProcess cmd ticks cs) :=
    runLoop_handleInv root hProcess cs _ rfl
      (launchState_handleInv root hProcess cmd ticks) hfresh
  refine ⟨hI.rootOpen, ?_, hI.closedNodup, ?_, ?_⟩
  · intro x info hk hp hf
    rw [handle_exit_found root _ x info hk hf]
    refine ⟨?_, find_erase_self _ _⟩
    simp [hp]
  · intro h hh
    refine ⟨hI.closedOpened h hh, ?_⟩
    rintro ⟨p, info, hf, he⟩
    by_cases hp : p = root
    · subst hp
      have := hI.rootRecord info hf
      rw [he] at this
      exact hI.rootOpen (this ▸ hh)
    · exact hI.recNotClosed p info hp hf (he ▸ hh)
  · intro hA h hh
    have hC : Covered root (afterLaunch root hProcess cmd ticks cs) :=
      runLoop_covered root cs _ rfl
        (by intro h hh; simp [launchState, loopEntry] at hh) hA
    rcases hC h hh with h1 | ⟨p, info, _, hf, he⟩
    · exact Or.inl h1
    · exact Or.inr ⟨p, info, hf, he⟩

theorem announcedFresh_reuse :
    announcedFresh 1 (launchState 1 7 [99] 0)
      [newProcess 2 8, exitProcess 2, newProcess 2 9] := by
  intro pre c post hsplit hq hk hp ho
  rcases pre with _ | ⟨a, _ | ⟨b, _ | ⟨d, pre⟩⟩⟩
  · simp only [List.nil_append, List.cons.injEq] at hsplit
    obtain ⟨rfl, _⟩ := hsplit
    decide
  · simp only [List.cons_append, List.nil_append, List.cons.injEq] at hsplit
    obtain ⟨_, rfl, _⟩ := hsplit
    exact absurd hk (by decide)
  · simp only [List.cons_append, List.nil_append, List.cons.injEq] at hsplit
    obtain ⟨rfl, rfl, rfl, _⟩ := hsplit
    decide
  · simp at hsplit

/-- Witness of the amended C9: root `1` (handle `7`); `2` is opened with handle
`8`, exits, and is announced again with the fresh handle `9`: the launch handle
`7` is not among the closed handles, and the handle `8` is closed or held. -/
theorem handle_release_amended_witness :
    7 ∉ (afterLaunch 1 7 [99] 0 [newProcess 2 8, exitProcess 2, newProcess 2 9]).closed ∧
      (8 ∈ (afterLaunch 1 7 [99] 0 [newProcess 2 8, exitProcess 2, newProcess 2 9]).closed ∨
        owns (afterLaunch 1 7 [99] 0
          [newProcess 2 8, exitProcess 2, newProcess 2 9]).activeProcesses 8) :=
  have h := handle_release_amended 1 7 [99] 0
    [newProcess 2 8, exitProcess 2, newProcess 2 9] (by decide)
  ⟨h.1, h.2.2.2.2 announcedFresh_reuse 8 (by decide)⟩

/-! ### The command line -/

theorem appendArg_nil_nil : appendArg [] [] = [] := by
  simp [appendArg, needQuotes]

theorem appendArg_nil (a : List Nat) : appendArg [] a = quoted a := by
  by_cases h : 32 ∈ a <;> simp [appendArg, needQuotes, quoted, h]

theorem appendArg_of_ne_nil (q a : List Nat) (hq : q ≠ []) :
    appendArg q a = q ++ [32] ++ quoted a := by
  by_cases h : 32 ∈ a <;> simp [appendArg, needQuotes, quoted, h, hq]

theorem quoted_ne_nil (a : List Nat) (ha : a ≠ []) : quoted a ≠ [] := by
  by_cases h : 32 ∈ a <;> simp [quoted, h, ha]

theorem joinWithSpace_cons_append (q x : List Nat) (l : List (List Nat)) :
    joinWithSpace ((q ++ [32] ++ x) :: l) = q ++ [32] ++ joinWithSpace (x :: l) := by
  cases l with
  | nil => simp [joinWithSpace]
  | cons b rest => simp [joinWithSpace]

theorem foldl_appendArg_of_ne_nil (q : List Nat) (rest : List (List Nat)) (hq : q ≠ []) :
    rest.foldl appendArg q = joinWithSpace (q :: rest.map quoted) := by
  induction rest generalizing q with
  | nil => simp [joinWithSpace]
  | cons a rest ih =>
    rw [List.foldl_cons, appendArg_of_ne_nil q a hq, ih _ (by simp), List.map_cons,
      joinWithSpace_cons_append]
    simp [joinWithSpace]

theorem foldl_appendArg_nil (args : List (List Nat)) :
    args.foldl appendArg [] =
      joinWithSpace ((args.dropWhile (fun a => decide (a = []))).map quoted) := by
  induction args with
  | nil => simp [joinWithSpace]
  | cons a rest ih =>
    by_cases ha : a = []
    · subst ha
      rw [List.foldl_cons, appendArg_nil_nil, ih]
      simp [List.dropWhile_cons]
    · rw [List.foldl_cons, appendArg_nil,
        foldl_appendArg_of_ne_nil _ rest (quoted_ne_nil a ha)]
      simp [List.dropWhile_cons, ha]

/-- C7, the claim as stated fails: for the argument vector of a program name
(`j`), an empty argument and the argument `a`, the command string built is `a`,
while the arguments joined with one space between consecutive ones give a
space followed by `a`. -/
theorem command_line_counterexample :
    buildCmd [[106], [], [97]] = [97] ∧ rejoined [[106], [], [97]] = [32, 97] := by
  decide

/-- C7 as amended: the command string built by `wmain` is the arguments after
the program name, without the empty arguments that come before the first
non-empty one, in their order, joined with exactly one space between
consecutive arguments, each argument that contains a space wrapped in one pair
of double quotes and every other argument unchanged. -/
theorem command_line_amended (argv : List (List Nat)) :
    buildCmd argv =
      joinWithSpace
        (((argv.drop 1).dropWhile (fun a => decide (a = []))).map quoted) := by
  unfold buildCmd
  exact foldl_appendArg_nil _

/-! ### The exit status -/

theorem runLoop_root_exit (root : Nat) (s : LoopState) (pre : List Completion)
    (c : Completion) (rest : List (Option Completion))
    (hq : s.quit = false) (hx : s.exited = false)
    (hno : ∀ c' ∈ pre, ¬ isExitOf root c') (hc : isExitOf root c) :
    runLoop root s (notifications pre ++ some c :: rest) =
      handle root (pre.foldl (handle root) s) c := by
  rw [runLoop_append, runLoop_eq_foldl root s pre hq hx hno]
  have hq1 : (pre.foldl (handle root) s).quit = false := by
    rw [foldl_quit root s pre hno]; exact hq
  have hx1 : (pre.foldl (handle root) s).exited = false := by rw [foldl_exited]; exact hx
  have hrun : ¬ ((pre.foldl (handle root) s).quit = true ∨
      (pre.foldl (handle root) s).exited = true) := by simp [hq1, hx1]
  simp only [runLoop, hrun, if_false, iteration]
  apply runLoop_stopped
  left
  rw [handle_quit]; simp [hc]

theorem runLoop_dequeue_failure (root : Nat) (s : LoopState) (pre : List Completion)
    (rest : List (Option Completion))
    (hq : s.quit = false) (hx : s.exited = false)
    (hno : ∀ c' ∈ pre, ¬ isExitOf root c') :
    runLoop root s (notifications pre ++ none :: rest) =
      iteration root (pre.foldl (handle root) s) none := by
  rw [runLoop_append, runLoop_eq_foldl root s pre hq hx hno]
  have hq1 : (pre.foldl (handle root) s).quit = false := by
    rw [foldl_quit root s pre hno]; exact hq
  have hx1 : (pre.foldl (handle root) s).exited = false := by rw [foldl_exited]; exact hx
  have hrun : ¬ ((pre.foldl (handle root) s).quit = true ∨
      (pre.foldl (handle root) s).exited = true) := by simp [hq1, hx1]
  simp only [runLoop, hrun, if_false]
  apply runLoop_stopped
  right
  rfl

/-- C6 (exit status): with the result of every system call an input, `wmain`
ends with status `1`, having executed nothing after the failing step, when the
job object, the completion port, their association, the process creation or the
assignment to the job fails; when, these having succeeded, a dequeue fails
before the root's exit has been handled; and when, the root's exit having been
handled, the final accounting query fails. It ends with status `0` when all of
them succeed and the root's exit notification is dequeued. -/
theorem exit_status (env : Env) (argv : List (List Nat)) :
    (env.createJobObject = 0 →
      wmain env argv = some ⟨1, setupSteps.take 1, none⟩) ∧
    (env.createJobObject ≠ 0 → env.createIoCompletionPort = 0 →
      wmain env argv = some ⟨1, setupSteps.take 2, none⟩) ∧
    (env.createJobObject ≠ 0 → env.createIoCompletionPort ≠ 0 →
      env.setInformationJobObject = false →
      wmain env argv = some ⟨1, setupSteps.take 3, none⟩) ∧
    (env.createJobObject ≠ 0 → env.createIoCompletionPort ≠ 0 →
      env.setInformationJobObject = true → env.createProcess = false →
      wmain env argv = some ⟨1, setupSteps.take 4, none⟩) ∧
    (env.createJobObject ≠ 0 → env.createIoCompletionPort ≠ 0 →
      env.setInformationJobObject = true → env.createProcess = true →
      env.assignProcessToJobObject = false →
      wmain env argv = some ⟨1, setupSteps, none⟩) ∧
    (¬ setupOk env → ∃ out, wmain env argv = some out ∧ out.status = 1 ∧ out.loop = none) ∧
    (setupOk env → ∀ (pre : List Completion) (rest : List (Option Completion)),
      env.dequeues = notifications pre ++ none :: rest →
      (∀ c ∈ pre, ¬ isExitOf env.rootProcessInfo.dwProcessId c) →
      wmain env argv = some ⟨1, setupSteps ++ [Step.resumeThread, Step.notificationLoop],
        some (iteration env.rootProcessInfo.dwProcessId
          (runLoop env.rootProcessInfo.dwProcessId (wmainLaunch env argv)
            (notifications pre)) none)⟩) ∧
    (setupOk env → ∀ (pre : List Completion) (x : Completion)
        (rest : List (Option Completion)),
      env.dequeues = notifications pre ++ some x :: rest →
      (∀ c ∈ pre, ¬ isExitOf env.rootProcessInfo.dwProcessId c) →
      isExitOf env.rootProcessInfo.dwProcessId x →
      (env.queryInformationJobObject = false →
        wmain env argv = some ⟨1, setupSteps ++ [Step.resumeThread, Step.notificationLoop,
            Step.waitForSingleObject, Step.queryInformationJobObject],
          some (runLoop env.rootProcessInfo.dwProcessId (wmainLaunch env argv)
            (notifications (pre ++ [x])))⟩) ∧
      (env.queryInformationJobObject = true →
        wmain env argv = some ⟨0, setupSteps ++ [Step.resumeThread, Step.notificationLoop,
            Step.waitForSingleObject, Step.queryInformationJobObject, Step.report],
          some (runLoop env.rootProcessInfo.dwProcessId (wmainLaunch env argv)
            (notifications (pre ++ [x])))⟩)) := by
  refine ⟨?_, ?_, ?_, ?_, ?_, ?_, ?_, ?_⟩
  · intro h1; simp [wmain, h1, setupSteps]
  · intro h1 h2; simp [wmain, h1, h2, setupSteps]
  · intro h1 h2 h3; simp [wmain, h1, h2, h3, setupSteps]
  · intro h1 h2 h3 h4; simp [wmain, h1, h2, h3, h4, setupSteps]
  · intro h1 h2 h3 h4 h5; simp [wmain, h1, h2, h3, h4, h5, setupSteps]
  · intro hbad
    by_cases h1 : env.createJobObject = 0
    · exact ⟨⟨1, setupSteps.take 1, none⟩, by simp [wmain, h1, setupSteps], rfl, rfl⟩
    by_cases h2 : env.createIoCompletionPort = 0
    · exact ⟨⟨1, setupSteps.take 2, none⟩, by simp [wmain, h1, h2, setupSteps], rfl, rfl⟩
    by_cases h3 : env.setInformationJobObject = false
    · exact ⟨⟨1, setupSteps.take 3, none⟩, by simp [wmain, h1, h2, h3, setupSteps], rfl, rfl⟩
    by_cases h4 : env.createProcess = false
    · exact ⟨⟨1, setupSteps.take 4, none⟩, by simp [wmain, h1, h2, h3, h4, setupSteps],
        rfl, rfl⟩
    by_cases h5 : env.assignProcessToJobObject = false
    · exact ⟨⟨1, setupSteps, none⟩, by simp [wmain, h1, h2, h3, h4, h5, setupSteps],
        rfl, rfl⟩
    · exact absurd ⟨h1, h2, by simpa using h3, by simpa using h4, by simpa using h5⟩ hbad
  · rintro ⟨h1, h2, h3, h4, h5⟩ pre rest hd hno
    have hrun := runLoop_dequeue_failure env.rootProcessInfo.dwProcessId
      (wmainLaunch env argv) pre rest rfl rfl hno
    have hfold := runLoop_eq_foldl env.rootProcessInfo.dwProcessId
      (wmainLaunch env argv) pre rfl rfl hno
    rw [hfold]
    simp only [wmain, h1, h2, h3, h4, h5, if_false, hd, hrun]
    simp [iteration, setupSteps]
  · rintro ⟨h1, h2, h3, h4, h5⟩ pre x rest hd hno hx
    have hrun := runLoop_root_exit env.rootProcessInfo.dwProcessId
      (wmainLaunch env argv) pre x rest rfl rfl hno hx
    have hrun2 := runLoop_root_exit env.rootProcessInfo.dwProcessId
      (wmainLaunch env argv) pre x [] rfl rfl hno hx
    have hcat : notifications (pre ++ [x]) = notifications pre ++ [some x] := by
      simp [notifications]
    rw [hcat, hrun2]
    have hq : (handle env.rootProcessInfo.dwProcessId
        (pre.foldl (handle env.rootProcessInfo.dwProcessId) (wmainLaunch env argv)) x).quit =
        true := by
      rw [handle_quit]; simp [hx]
    have he : (handle env.rootProcessInfo.dwProcessId
        (pre.foldl (handle env.rootProcessInfo.dwProcessId) (wmainLaunch env argv)) x).exited =
        false := by
      rw [handle_exited, foldl_exited]; rfl
    constructor
    · intro hqf
      simp only [wmain, h1, h2, h3, h4, h5, if_false, hd, hrun, hq, he, hqf]
      simp [setupSteps]
    · intro hqt
      simp only [wmain, h1, h2, h3, h4, h5, if_false, hd, hrun, hq, he, hqt]
      simp [setupSteps]

/-- Witness of C6: the root `1` starts a child and exits, with the final query
succeeding (status `0`) and failing (status `1`); a dequeue fails after the
child was announced (status `1`); the job object cannot be created (status `1`). -/
theorem exit_status_witness :
    (wmain (sampleEnv [some (newProcess 2 8), some (exitProcess 1), none] true) [[106], [97]] =
      some ⟨0, setupSteps ++ [Step.resumeThread, Step.notificationLoop,
          Step.waitForSingleObject, Step.queryInformationJobObject, Step.report],
        some (runLoop 1
          (wmainLaunch (sampleEnv [some (newProcess 2 8), some (exitProcess 1), none] true)
            [[106], [97]])
          (notifications ([newProcess 2 8] ++ [exitProcess 1])))⟩) ∧
    (wmain (sampleEnv [some (newProcess 2 8), some (exitProcess 1), none] false) [[106], [97]] =
      some ⟨1, setupSteps ++ [Step.resumeThread, Step.notificationLoop,
          Step.waitForSingleObject, Step.queryInformationJobObject],
        some (runLoop 1
          (wmainLaunch (sampleEnv [some (newProcess 2 8), some (exitProcess 1), none] false)
            [[106], [97]])
          (notifications ([newProcess 2 8] ++ [exitProcess 1])))⟩) ∧
    (wmain (sampleEnv [some (newProcess 2 8), none, some (exitProcess 1)] true) [[106], [97]] =
      some ⟨1, setupSteps ++ [Step.resumeThread, Step.notificationLoop],
        some (iteration 1
          (runLoop 1
            (wmainLaunch (sampleEnv [some (newProcess 2 8), none, some (exitProcess 1)] true)
              [[106], [97]])
            (notifications [newProcess 2 8])) none)⟩) ∧
    (wmain { sampleEnv [some (exitProcess 1)] true with createJobObject := 0 } [[106], [97]] =
      some ⟨1, setupSteps.take 1, none⟩) :=
  ⟨((exit_status (sampleEnv [some (newProcess 2 8), some (exitProcess 1), none] true)
        [[106], [97]]).2.2.2.2.2.2.2 (by decide) [newProcess 2 8] (exitProcess 1) [none] rfl
        (by decide) (by decide)).2 rfl,
    ((exit_status (sampleEnv [some (newProcess 2 8), some (exitProcess 1), none] false)
        [[106], [97]]).2.2.2.2.2.2.2 (by decide) [newProcess 2 8] (exitProcess 1) [none] rfl
        (by decide) (by decide)).1 rfl,
    (exit_status (sampleEnv [some (newProcess 2 8), none, some (exitProcess 1)] true)
        [[106], [97]]).2.2.2.2.2.2.1 (by decide) [newProcess 2 8] [some (exitProcess 1)] rfl
        (by decide),
    (exit_status { sampleEnv [some (exitProcess 1)] true with createJobObject := 0 }
        [[106], [97]]).1 rfl⟩

/-! ### The byte-count formatter -/

theorem KIB_eq : KIB = 1024 := by decide

theorem MIB_eq : MIB = 1024 ^ 2 := by decide

theorem GIB_eq : GIB = 1024 ^ 3 := by decide

theorem excessBits_le (fuel n : Nat) : excessBits fuel n ≤ fuel := by
  induction fuel generalizing n with
  | zero => simp [excessBits]
  | succ f ih =>
    unfold excessBits
    split_ifs
    · omega
    · have := ih (n / 2); omega

theorem excessBits_succ_eq_zero_iff (fuel n : Nat) :
    excessBits (fuel + 1) n = 0 ↔ n < 2 ^ 53 := by
  unfold excessBits
  split_ifs with h
  · exact ⟨fun _ => h, fun _ => rfl⟩
  · exact ⟨fun h0 => h0.elim, fun h1 => absurd h1 h⟩

theorem excessBits_div_lt (fuel n : Nat) (h : n < 2 ^ (53 + fuel)) :
    n / 2 ^ excessBits fuel n < 2 ^ 53 := by
  induction fuel generalizing n with
  | zero => simpa [excessBits] using h
  | succ f ih =>
    unfold excessBits
    split_ifs with h1
    · simpa using h1
    · have h2 : n / 2 < 2 ^ (53 + f) := by
        have : 2 ^ (53 + (f + 1)) = 2 * 2 ^ (53 + f) := by
          rw [← Nat.add_assoc, Nat.pow_succ, Nat.mul_comm]
        rw [this] at h
        omega
      have h3 := ih (n / 2) h2
      rw [Nat.pow_succ, Nat.mul_comm, ← Nat.div_div_eq_div_mul]
      exact h3

theorem toDouble_of_lt (n : Nat) (h : n < 2 ^ 53) : toDouble n = n := by
  have h0 : excessBits 11 n = 0 := (excessBits_succ_eq_zero_iff 10 n).2 h
  simp [toDouble, h0]

/-- The value `toDouble n` in terms of the quotient and the remainder of `n` by
the power of two of its excess bits. -/
theorem toDouble_cases (n : Nat) (hsh : excessBits 11 n ≠ 0) :
    (toDouble n = (n / 2 ^ excessBits 11 n + 1) * 2 ^ excessBits 11 n ∧
        2 ^ (excessBits 11 n - 1) ≤ n % 2 ^ excessBits 11 n) ∨
      (toDouble n = n / 2 ^ excessBits 11 n * 2 ^ excessBits 11 n ∧
        n % 2 ^ excessBits 11 n ≤ 2 ^ (excessBits 11 n - 1)) := by
  unfold toDouble
  simp only [hsh, if_false]
  split_ifs with h
  · left
    refine ⟨rfl, ?_⟩
    rcases h with h | ⟨h, _⟩
    · exact Nat.le_of_lt h
    · exact Nat.le_of_eq h.symm
  · right
    refine ⟨rfl, ?_⟩
    by_contra hc
    exact h (Or.inl (Nat.lt_of_not_le hc))

theorem toDouble_near (n : Nat) : n ≤ toDouble n + 1024 ∧ toDouble n ≤ n + 1024 := by
  by_cases hsh : excessBits 11 n = 0
  · have : toDouble n = n := by simp [toDouble, hsh]
    rw [this]; omega
  · have hle : excessBits 11 n ≤ 11 := excessBits_le 11 n
    have hpow : 2 ^ excessBits 11 n = 2 * 2 ^ (excessBits 11 n - 1) := by
      have : excessBits 11 n = (excessBits 11 n - 1) + 1 := by omega
      conv_lhs => rw [this, Nat.pow_succ, Nat.mul_comm]
    have hhalf : 2 ^ (excessBits 11 n - 1) ≤ 1024 := by
      have : 2 ^ (excessBits 11 n - 1) ≤ 2 ^ 10 :=
        Nat.pow_le_pow_right (by decide) (by omega)
      simpa using this
    have hdm := Nat.div_add_mod n (2 ^ excessBits 11 n)
    have hlt := Nat.mod_lt n (Nat.pos_pow_of_pos (excessBits 11 n) (by decide : 0 < 2))
    rw [Nat.mul_comm] at hdm
    rcases toDouble_cases n hsh with ⟨he, hr⟩ | ⟨he, hr⟩
    · rw [he, Nat.add_mul, Nat.one_mul]
      omega
    · rw [he]
      omega

theorem toDouble_significand (n : Nat) (hn : n < 2 ^ 64) :
    ∃ m, m ≤ 2 ^ 53 ∧ toDouble n = m * 2 ^ excessBits 11 n := by
  have hq : n / 2 ^ excessBits 11 n < 2 ^ 53 := excessBits_div_lt 11 n (by simpa using hn)
  by_cases hsh : excessBits 11 n = 0
  · refine ⟨n, ?_, by simp [toDouble, hsh]⟩
    have := (excessBits_succ_eq_zero_iff 10 n).1 hsh
    omega
  · rcases toDouble_cases n hsh with ⟨he, _⟩ | ⟨he, _⟩
    · exact ⟨n / 2 ^ excessBits 11 n + 1, by omega, he⟩
    · exact ⟨n / 2 ^ excessBits 11 n, by omega, he⟩

/-- The tenths printed are a nearest number of tenths of `num / den`. -/
theorem tenths_nearest (tie : Nat → Bool) (num den : Nat) (hden : 0 < den) :
    den * (2 * tenths tie num den) ≤ 20 * num + den ∧
      20 * num ≤ den * (2 * tenths tie num den + 1) := by
  have hdm := Nat.div_add_mod (10 * num) den
  have hlt := Nat.mod_lt (10 * num) hden
  unfold tenths
  simp only
  split_ifs with h
  · have e1 : den * (2 * (10 * num / den + 1)) = 2 * (den * (10 * num / den)) + 2 * den := by
      ring
    have e2 : den * (2 * (10 * num / den + 1) + 1) =
        2 * (den * (10 * num / den)) + 3 * den := by ring
    rw [e1, e2]
    have hr : den ≤ 2 * (10 * num % den) := by
      rcases h with h | ⟨h, _⟩
      · exact Nat.le_of_lt h
      · exact Nat.le_of_eq h.symm
    omega
  · have e1 : den * (2 * (10 * num / den)) = 2 * (den * (10 * num / den)) := by ring
    have e2 : den * (2 * (10 * num / den) + 1) = 2 * (den * (10 * num / den)) + den := by
      ring
    rw [e1, e2]
    have hr : 2 * (10 * num % den) ≤ den := by
      by_contra hc
      exact h (Or.inl (Nat.lt_of_not_le hc))
    omega

/-- C8, the claim as stated fails: for `n = 9007199308428083` (above `2 ^ 53`),
`n` divided by `1024³` is below `8388608.05` and has `8388608.0` as its nearest
value with one digit after the point, but `(double)n` is `n + 1`, whose quotient
is above `8388608.05`: the string built is `8388608.1 GB`, under either tie
rule. -/
theorem friendly_bytes_counterexample :
    9007199308428083 < 2 ^ 64 ∧
      toDouble 9007199308428083 = 9007199308428084 ∧
      FriendlyBytesStr tiesToEven 9007199308428083 =
        ['8', '3', '8', '8', '6', '0', '8', '.', '1', ' ', 'G', 'B'] ∧
      friendlyBytesSpec tiesToEven 9007199308428083 =
        ['8', '3', '8', '8', '6', '0', '8', '.', '0', ' ', 'G', 'B'] ∧
      FriendlyBytesStr tiesAway 9007199308428083 =
        ['8', '3', '8', '8', '6', '0', '8', '.', '1', ' ', 'G', 'B'] ∧
      friendlyBytesSpec tiesAway 9007199308428083 =
        ['8', '3', '8', '8', '6', '0', '8', '.', '0', ' ', 'G', 'B'] := by
  decide

/-- C8 as amended: for every unsigned 64-bit `n`, the string is the decimal
digits of `n` when `n < 1024`; it is `n` divided by 1024, resp. 1024², with one
digit after the point and the suffix ` KB`, resp. ` MB`, when
`1024 ≤ n < 1024²`, resp. `1024² ≤ n < 1024³`; and when `1024³ ≤ n` it is
`(double)n` divided by 1024³ with one digit after the point and the suffix
` GB`. Here `(double)n` is `n` below `2 ^ 53` and otherwise a value with a
significand of at most 53 bits that is at most 1024 away from `n`, and the
number printed is a nearest number of tenths of the quotient. -/
theorem friendly_bytes_amended (tie : Nat → Bool) (n : Nat) (hn : n < 2 ^ 64) :
    (n < 1024 → FriendlyBytesStr tie n = Nat.toDigits 10 n) ∧
      (1024 ≤ n → n < 1024 ^ 2 →
        FriendlyBytesStr tie n = fixed1 tie n 1024 ++ [' ', 'K', 'B']) ∧
      (1024 ^ 2 ≤ n → n < 1024 ^ 3 →
        FriendlyBytesStr tie n = fixed1 tie n (1024 ^ 2) ++ [' ', 'M', 'B']) ∧
      (1024 ^ 3 ≤ n →
        FriendlyBytesStr tie n = fixed1 tie (toDouble n) (1024 ^ 3) ++ [' ', 'G', 'B']) ∧
      (n < 2 ^ 53 → toDouble n = n ∧ FriendlyBytesStr tie n = friendlyBytesSpec tie n) ∧
      (n ≤ toDouble n + 1024 ∧ toDouble n ≤ n + 1024) ∧
      (∃ m, m ≤ 2 ^ 53 ∧ toDouble n = m * 2 ^ excessBits 11 n) ∧
      (∀ num den, 0 < den →
        den * (2 * tenths tie num den) ≤ 20 * num + den ∧
          20 * num ≤ den * (2 * tenths tie num den + 1)) := by
  have hK : ¬ n < 1024 → n < 1024 ^ 2 → FriendlyBytesStr tie n =
      fixed1 tie n 1024 ++ [' ', 'K', 'B'] := by
    intro h1 h2
    have hd : toDouble n = n := toDouble_of_lt n (by omega)
    simp only [FriendlyBytesStr, KIB_eq, MIB_eq, h1, h2, hd, if_false, if_true]
  have hM : ¬ n < 1024 ^ 2 → n < 1024 ^ 3 → FriendlyBytesStr tie n =
      fixed1 tie n (1024 ^ 2) ++ [' ', 'M', 'B'] := by
    intro h1 h2
    have h0 : ¬ n < 1024 := by omega
    have hd : toDouble n = n := toDouble_of_lt n (by omega)
    simp only [FriendlyBytesStr, KIB_eq, MIB_eq, GIB_eq, h0, h1, h2, hd, if_false, if_true]
  have hG : ¬ n < 1024 ^ 3 → FriendlyBytesStr tie n =
      fixed1 tie (toDouble n) (1024 ^ 3) ++ [' ', 'G', 'B'] := by
    intro h1
    have h0 : ¬ n < 1024 := by omega
    have h2 : ¬ n < 1024 ^ 2 := by omega
    simp only [FriendlyBytesStr, KIB_eq, MIB_eq, GIB_eq, h0, h1, h2, if_false]
  have hU : n < 1024 → FriendlyBytesStr tie n = Nat.toDigits 10 n := by
    intro h
    have hm : n % 2 ^ 32 = n := Nat.mod_eq_of_lt (by omega)
    simp only [FriendlyBytesStr, KIB_eq, h, hm, if_true]
  refine ⟨hU, fun h1 h2 => hK (by omega) h2, fun h1 h2 => hM (by omega) h2,
    fun h1 => hG (by omega), ?_, toDouble_near n, toDouble_significand n hn,
    fun num den hden => tenths_nearest tie num den hden⟩
  intro h53
  have hd : toDouble n = n := toDouble_of_lt n h53
  refine ⟨hd, ?_⟩
  unfold friendlyBytesSpec
  by_cases h1 : n < 1024
  · rw [if_pos h1]; exact hU h1
  · rw [if_neg h1]
    by_cases h2 : n < 1024 ^ 2
    · rw [if_pos h2]; exact hK h1 h2
    · rw [if_neg h2]
      by_cases h3 : n < 1024 ^ 3
      · rw [if_pos h3]; exact hM h2 h3
      · rw [if_neg h3, hG h3, hd]

/-- Witness of the amended C8: 1536 bytes are `1.5 KB`, and 1280 bytes, which
are 1.25 KB, are `1.2 KB` for a runtime that rounds ties to even. -/
theorem friendly_bytes_amended_witness :
    FriendlyBytesStr tiesToEven 1536 = fixed1 tiesToEven 1536 1024 ++ [' ', 'K', 'B'] ∧
      FriendlyBytesStr tiesToEven 1280 = friendlyBytesSpec tiesToEven 1280 ∧
      friendlyBytesSpec tiesToEven 1280 = ['1', '.', '2', ' ', 'K', 'B'] :=
  ⟨(friendly_bytes_amended tiesToEven 1536 (by decide)).2.1 (by decide) (by decide),
    ((friendly_bytes_amended tiesToEven 1280 (by decide)).2.2.2.2.1 (by decide)).2,
    by decide⟩

end Jobtimes
